import Mathlib

/-!
Verification of the pyhessian `HessianEstimator` core (src/pyhessian.py).

The TensorFlow graph is shallowly embedded:
* a `Tensor α` is a shape together with row-major data;
* differentiable graph nodes are terms of the expression language `Expr`
  over rational constants and numbered parameter variables, with
  `Expr.eval` giving the value and `Expr.grad` the reverse-mode
  (algorithmic) partial derivative that `tf.gradients` computes,
  `Expr.stopGrad` modelling `tf.stop_gradient`;
* fallible tensor ops (`tf.reshape`, `tf.concat`, `tf.split`,
  `tf.stack`, broadcasting `tf.math.multiply`, `tf.matmul`,
  `tf.transpose`) return `Except TFError`, with Python list indexing
  out of range mapped to `TFError.indexError`, shape mismatches to
  `TFError.shapeError` and the `tf.split` divisibility failure to
  `TFError.batchShapeError`.

The estimator methods `flatten`, `flatten_v2`, `unflatten`,
`get_Hv_op`, `get_H_op` and `get_G_op` are translated line by line
from the source; `self.layers`, `self.params`, `self.X`, `self.y`,
`self.batch_size` and the opaque collaborators `model_fun` /
`cost_fun` become explicit arguments.
-/

/-- Error classes raised by the embedded tensor operations. -/
inductive TFError : Type where
  | shapeError : TFError
  | batchShapeError : TFError
  | indexError : TFError
deriving DecidableEq

deriving instance DecidableEq for Except

/-- A tensor: a shape (list of dimension sizes) and row-major data. -/
structure Tensor (α : Type) where
  shape : List Nat
  data : List α
deriving DecidableEq

/-- The differentiable scalar expression language of the graph engine:
rational constants, parameter variables (numbered by flat position),
addition, multiplication, division, and `tf.stop_gradient`. -/
inductive Expr : Type where
  | const : ℚ → Expr
  | var : Nat → Expr
  | add : Expr → Expr → Expr
  | mul : Expr → Expr → Expr
  | div : Expr → Expr → Expr
  | stopGrad : Expr → Expr
deriving DecidableEq

/-- Value of an expression at an assignment of the parameter variables. -/
def Expr.eval (x : Nat → ℚ) : Expr → ℚ
  | .const c => c
  | .var i => x i
  | .add a b => a.eval x + b.eval x
  | .mul a b => a.eval x * b.eval x
  | .div a b => a.eval x / b.eval x
  | .stopGrad a => a.eval x

/-- The partial derivative with respect to variable `i` as computed by
reverse-mode differentiation on the graph (`tf.gradients`); gradient flow
is blocked at `stopGrad` nodes. -/
def Expr.grad (i : Nat) : Expr → Expr
  | .const _ => .const 0
  | .var j => .const (if j = i then 1 else 0)
  | .add a b => .add (a.grad i) (b.grad i)
  | .mul a b => .add (.mul (a.grad i) b) (.mul a (b.grad i))
  | .div a b => .div (.add (.mul (a.grad i) b) (.mul (.const (-1)) (.mul a (b.grad i)))) (.mul b b)
  | .stopGrad _ => .const 0

/-- Expressions built only from constants, variables, `add` and `mul`:
on these the algorithmic derivative agrees with the analytic one. -/
def Expr.smooth : Expr → Bool
  | .const _ => true
  | .var _ => true
  | .add a b => a.smooth && b.smooth
  | .mul a b => a.smooth && b.smooth
  | .div _ _ => false
  | .stopGrad _ => false

/-- Sum of a list of expressions; `tf.gradients` of a non-scalar tensor
differentiates the sum of its entries. -/
def sumE (l : List Expr) : Expr := l.foldr .add (.const 0)

/-- Sequencing of fallible computations: Python evaluates a list
comprehension left to right and propagates the first exception. -/
def seqE {α : Type} : List (Except TFError α) → Except TFError (List α)
  | [] => .ok []
  | x :: xs =>
    match x with
    | .error e => .error e
    | .ok a =>
      match seqE xs with
      | .error e => .error e
      | .ok as => .ok (a :: as)

/-- `np.cumsum`: partial sums, first entry included. -/
def np_cumsum : List Nat → List Nat
  | [] => []
  | x :: xs => x :: (np_cumsum xs).map (fun c => x + c)

/-- `tf.reshape` to a fully known shape: the element count must match. -/
def tfReshape {α : Type} (t : Tensor α) (s : List Nat) : Except TFError (Tensor α) :=
  if t.data.length = s.prod then .ok ⟨s, t.data⟩ else .error .shapeError

/-- `tf.reshape(t, [-1])`: flatten to 1-D, always succeeds. -/
def tfReshapeFlat {α : Type} (t : Tensor α) : Tensor α := ⟨[t.data.length], t.data⟩

/-- `tf.concat(ts, axis=0)` on 1-D tensors: the input list must be
non-empty and each input 1-D. -/
def tfConcat1 {α : Type} (ts : List (Tensor α)) : Except TFError (Tensor α) :=
  if 0 < ts.length ∧ ∀ t ∈ ts, t.shape = [t.data.length] then
    .ok ⟨[(ts.map (fun t => t.data.length)).sum], (ts.map (fun t => t.data)).flatten⟩
  else .error .shapeError

/-- `t[a:b]` on a 1-D tensor: Python slicing, clamped at the ends. -/
def tfSlice1 {α : Type} (t : Tensor α) (a b : Nat) : Tensor α :=
  ⟨[((t.data.drop a).take (b - a)).length], (t.data.drop a).take (b - a)⟩

/-- `tf.identity`: a fresh node carrying the same shape and values. -/
def tfIdentity {α : Type} (t : Tensor α) : Tensor α := ⟨t.shape, t.data⟩

/-- `tf.split(t, num)` along axis 0: the leading dimension must be a
positive multiple of `num`. -/
def tfSplit {α : Type} (t : Tensor α) (num : Nat) : Except TFError (List (Tensor α)) :=
  match t.shape with
  | [] => .error .shapeError
  | n :: rest =>
    if num ≠ 0 ∧ n % num = 0 then
      .ok ((List.range num).map (fun i =>
        ⟨(n / num) :: rest,
         (t.data.drop (i * (n / num * rest.prod))).take (n / num * rest.prod)⟩))
    else .error .batchShapeError

/-- `tf.stack` of 1-D tensors into a matrix: the inputs must be
non-empty and of one common 1-D shape. -/
def tfStack1 {α : Type} (ts : List (Tensor α)) : Except TFError (Tensor α) :=
  if 0 < ts.length ∧ ∀ t ∈ ts, t.shape = [(ts.headD ⟨[], []⟩).data.length] ∧
      t.data.length = (ts.headD ⟨[], []⟩).data.length then
    .ok ⟨[ts.length, (ts.headD ⟨[], []⟩).data.length], (ts.map (fun t => t.data)).flatten⟩
  else .error .shapeError

/-- `tf.transpose` of a matrix. -/
def tfTranspose (t : Tensor Expr) : Except TFError (Tensor Expr) :=
  match t.shape with
  | [m, n] =>
    .ok ⟨[n, m], (List.range (n * m)).map (fun idx =>
      t.data.getD (idx % m * n + idx / m) (.const 0))⟩
  | _ => .error .shapeError

/-- `tf.matmul` of two matrices with matching inner dimension. -/
def tfMatmul (a b : Tensor Expr) : Except TFError (Tensor Expr) :=
  match a.shape, b.shape with
  | [m, k], [k2, n] =>
    if k = k2 then
      .ok ⟨[m, n], (List.range (m * n)).map (fun idx =>
        sumE ((List.range k).map (fun s =>
          .mul (a.data.getD (idx / n * k + s) (.const 0))
               (b.data.getD (s * n + idx % n) (.const 0)))))⟩
    else .error .shapeError
  | _, _ => .error .shapeError

/-- Elementwise division of a tensor by a scalar (`t / batch_size`). -/
def tfDivScalar (t : Tensor Expr) (c : ℚ) : Tensor Expr :=
  ⟨t.shape, t.data.map (fun e => .div e (.const c))⟩

/-- `tf.math.multiply` on 1-D tensors with the scalar broadcasting rule:
equal shapes multiply elementwise, a shape-`[1]` operand broadcasts. -/
def tfMultiply (a b : Tensor Expr) : Except TFError (Tensor Expr) :=
  if a.shape = b.shape then
    .ok ⟨a.shape, List.zipWith .mul a.data b.data⟩
  else
    match b.shape, b.data with
    | [1], [x] => .ok ⟨a.shape, a.data.map (fun e => .mul e x)⟩
    | _, _ =>
      match a.shape, a.data with
      | [1], [x] => .ok ⟨b.shape, b.data.map (fun e => .mul x e)⟩
      | _, _ => .error .shapeError

/-- `tf.stop_gradient` on a tensor of graph nodes. -/
def tfStopGradient (t : Tensor Expr) : Tensor Expr := ⟨t.shape, t.data.map .stopGrad⟩

/-- `tf.gradients(cost, xs)` where `xs` are parameter-variable tensors:
one tensor per input, of the input's shape, holding the reverse-mode
partial derivative of `cost` with respect to each entry's variable. -/
def tfGradients (cost : Expr) (xs : List (Tensor Nat)) : List (Tensor Expr) :=
  xs.map (fun t => ⟨t.shape, t.data.map (fun k => cost.grad k)⟩)

/-- `tf.eye(n, n)`: the identity matrix (as constant graph nodes). -/
def tfEye (n : Nat) : Tensor Expr :=
  ⟨[n, n], (List.range (n * n)).map (fun idx => .const (if idx / n = idx % n then 1 else 0))⟩

/-- `tf.map_fn(f, t)` for a matrix `t`: apply `f` to each row and stack
the results. -/
def tfMapFnRows (f : Tensor Expr → Except TFError (Tensor Expr)) (t : Tensor Expr) :
    Except TFError (Tensor Expr) :=
  match t.shape with
  | [m, n] => do
    let rows ← seqE ((List.range m).map (fun i =>
      f ⟨[n], (t.data.drop (i * n)).take n⟩))
    tfStack1 rows
  | _ => .error .shapeError

/-- Python list indexing `l[i]`: raises `IndexError` when out of range. -/
def pyIdx {α : Type} (l : List α) (i : Nat) : Except TFError α :=
  match l[i]? with
  | some t => .ok t
  | none => .error .indexError

/-- `self.P`: total parameter count
`Σ_l layers[l]*layers[l+1] + layers[l+1]`. -/
def P (layers : List Nat) : Nat :=
  ((List.range (layers.length - 1)).map (fun l =>
    layers.getD l 0 * layers.getD (l + 1) 0 + layers.getD (l + 1) 0)).sum

/-- `HessianEstimator.flatten`: concatenate the reshaped weight tensors
`params[0..L-1]`, then the bias tensors `params[L..2L-1]`, then both. -/
def flatten {α : Type} (layers : List Nat) (params : List (Tensor α)) :
    Except TFError (Tensor α) := do
  let wparts ← seqE ((List.range (layers.length - 1)).map (fun l =>
    pyIdx params l >>= fun t => tfReshape t [layers.getD l 0 * layers.getD (l + 1) 0]))
  let weights ← tfConcat1 wparts
  let bparts ← seqE ((List.range (layers.length - 1)).map (fun l =>
    pyIdx params (l + (layers.length - 1))))
  let biases ← tfConcat1 bparts
  tfConcat1 [weights, biases]

/-- `HessianEstimator.flatten_v2`: concatenate
`tf.reshape(params[l], [-1])` for `l in range(len(layers))`. -/
def flatten_v2 {α : Type} (layers : List Nat) (params : List (Tensor α)) :
    Except TFError (Tensor α) := do
  let parts ← seqE ((List.range layers.length).map (fun l =>
    pyIdx params l >>= fun t => .ok (tfReshapeFlat t)))
  tfConcat1 parts

/-- `HessianEstimator.unflatten`: cut the flat vector at the cumulative
weight boundaries `winds` and bias boundaries `binds` and reshape each
segment. -/
def unflatten {α : Type} (layers : List Nat) (params_flat : Tensor α) :
    Except TFError (List (Tensor α)) := do
  let winds := np_cumsum (0 :: List.zipWith (· * ·) ((layers.rotate 1).dropLast) layers.dropLast)
  let weights ← seqE ((List.range (layers.length - 1)).map (fun l =>
    tfReshape (tfSlice1 params_flat (winds.getD l 0) (winds.getD (l + 1) 0))
      [layers.getD l 0, layers.getD (l + 1) 0]))
  let wlast := winds.getD (winds.length - 1) 0
  let binds := wlast :: (np_cumsum (layers.drop 1)).map (fun c => wlast + c)
  let biases ← seqE ((List.range (layers.length - 1)).map (fun l =>
    tfReshape (tfSlice1 params_flat (binds.getD l 0) (binds.getD (l + 1) 0))
      [layers.getD (l + 1) 0]))
  .ok (weights ++ biases)

/-- `HessianEstimator.get_Hv_op`: flatten the gradient, multiply by the
frozen direction `v`, differentiate again and flatten. -/
def get_Hv_op (layers : List Nat) (cost : Expr) (params : List (Tensor Nat))
    (v : Tensor Expr) : Except TFError (Tensor Expr) := do
  let cost_gradient ← flatten layers (tfGradients cost params)
  let vprod ← tfMultiply cost_gradient (tfStopGradient v)
  flatten layers (tfGradients (sumE vprod.data) params)

/-- `HessianEstimator.get_H_op`: map `get_Hv_op` over the rows of the
`P × P` identity matrix. -/
def get_H_op (layers : List Nat) (cost : Expr) (params : List (Tensor Nat)) :
    Except TFError (Tensor Expr) :=
  tfMapFnRows (get_Hv_op layers cost params) (tfEye (P layers))

/-- The per-example parameter copies built at the top of
`HessianEstimator.get_G_op`:
`[[tf.identity(params[l]) for l in range(len(layers))] for ex in range(batch_size)]`. -/
def exParams (layers : List Nat) (params : List (Tensor Nat)) (batch_size : Nat) :
    Except TFError (List (List (Tensor Nat))) :=
  seqE ((List.range batch_size).map (fun _ =>
    seqE ((List.range layers.length).map (fun l =>
      pyIdx params l >>= fun t => .ok (tfIdentity t)))))

/-- Three-list `zip` used for
`zip(ex_y, ex_yhat_logits, ex_params)`. -/
def zip3With {α β γ δ : Type} (f : α → β → γ → δ) :
    List α → List β → List γ → List δ
  | a :: as, b :: bs, c :: cs => f a b c :: zip3With f as bs cs
  | _, _, _ => []

/-- `HessianEstimator.get_G_op`: per-example parameter copies, split the
batch, build per-example costs with the opaque `model_fun` / `cost_fun`,
flatten each per-example gradient, stack, and return
`Gradᵀ·Grad / batch_size`. -/
def get_G_op (layers : List Nat) (params : List (Tensor Nat)) (X y : Tensor ℚ)
    (batch_size : Nat)
    (model_fun : Tensor ℚ → List (Tensor Nat) → Tensor Expr)
    (cost_fun : Tensor ℚ → Tensor Expr → List (Tensor Nat) → Expr) :
    Except TFError (Tensor Expr) := do
  let ex_params ← exParams layers params batch_size
  let ex_X ← tfSplit X batch_size
  let ex_y ← tfSplit y batch_size
  let ex_yhat_logits := List.zipWith model_fun ex_X ex_params
  let ex_cost := zip3With cost_fun ex_y ex_yhat_logits ex_params
  let ex_grads_rows ← seqE ((List.range batch_size).map (fun ex =>
    pyIdx ex_cost ex >>= fun c => pyIdx ex_params ex >>= fun ps =>
      flatten layers (tfGradients c ps)))
  let ex_grads ← tfStack1 ex_grads_rows
  let tr ← tfTranspose ex_grads
  let m ← tfMatmul tr ex_grads
  .ok (tfDivScalar m (batch_size : ℚ))

/-- Weight-segment size `layers[l] * layers[l+1]`. -/
def wsize (layers : List Nat) (l : Nat) : Nat :=
  layers.getD l 0 * layers.getD (l + 1) 0

/-- Bias-segment size `layers[l+1]`. -/
def bsize (layers : List Nat) (l : Nat) : Nat := layers.getD (l + 1) 0

/-- Start offset of weight segment `l` in the flat vector. -/
def woff (layers : List Nat) (l : Nat) : Nat :=
  ((List.range l).map (wsize layers)).sum

/-- Start offset of bias segment `l` in the flat vector. -/
def boff (layers : List Nat) (l : Nat) : Nat :=
  woff layers (layers.length - 1) + ((List.range l).map (bsize layers)).sum

/-- A `StructuredParameters` list conforming to the layer schema:
`2L` tensors, the `L` weight tensors of shape
`(layers[l], layers[l+1])` followed by the `L` bias vectors of shape
`(layers[l+1],)`. -/
def Conforms {α : Type} (layers : List Nat) (ps : List (Tensor α)) : Prop :=
  ps.length = 2 * (layers.length - 1) ∧
  (∀ l, l < layers.length - 1 →
    (ps.getD l ⟨[], []⟩).shape = [layers.getD l 0, layers.getD (l + 1) 0] ∧
    (ps.getD l ⟨[], []⟩).data.length = wsize layers l) ∧
  (∀ l, l < layers.length - 1 →
    (ps.getD (l + (layers.length - 1)) ⟨[], []⟩).shape = [layers.getD (l + 1) 0] ∧
    (ps.getD (l + (layers.length - 1)) ⟨[], []⟩).data.length = bsize layers l)

/-- The canonical parameter-variable tensors: weight and bias entries
numbered by their position in the flat vector, so that variable `k`
sits at flat position `k`. -/
def canonicalParams (layers : List Nat) : List (Tensor Nat) :=
  (List.range (layers.length - 1)).map (fun l =>
    ⟨[layers.getD l 0, layers.getD (l + 1) 0], List.range' (woff layers l) (wsize layers l)⟩) ++
  (List.range (layers.length - 1)).map (fun l =>
    ⟨[layers.getD (l + 1) 0], List.range' (boff layers l) (bsize layers l)⟩)

/-- The `i`-th standard basis vector `e_i` of length `n`, as a constant
tensor. -/
def stdBasis (n i : Nat) : Tensor Expr :=
  ⟨[n], (List.range n).map (fun j => .const (if j = i then 1 else 0))⟩

/-- Row `i` of a matrix tensor. -/
def rowData (t : Tensor Expr) (i : Nat) : List Expr :=
  match t.shape with
  | [_, n] => (t.data.drop (i * n)).take n
  | _ => []

/-- Value of entry `(i, j)` of a matrix tensor of width `w` at a
variable assignment. -/
def entryEval (x : Nat → ℚ) (t : Tensor Expr) (w i j : Nat) : ℚ :=
  Expr.eval x (t.data.getD (i * w + j) (.const 0))

/-! ### Generic helper lemmas -/

theorem seqE_map_ok {α β : Type} {f : α → Except TFError β} {g : α → β} :
    ∀ (xs : List α), (∀ x ∈ xs, f x = .ok (g x)) → seqE (xs.map f) = .ok (xs.map g) := by
  intro xs
  induction xs with
  | nil => intro _; rfl
  | cons a as ih =>
    intro h
    have ha := h a (by simp)
    have has := ih (fun x hx => h x (by simp [hx]))
    simp only [List.map_cons, seqE, ha, has]

theorem seqE_ok_mem {α : Type} {l : List (Except TFError α)} {r : List α}
    (h : seqE l = .ok r) : ∀ x ∈ l, ∃ a, x = .ok a := by
  induction l generalizing r with
  | nil => intro x hx; cases hx
  | cons y ys ih =>
    intro x hx
    simp only [seqE] at h
    cases y with
    | error e => cases h
    | ok a =>
      rcases List.mem_cons.mp hx with rfl | hx2
      · exact ⟨a, rfl⟩
      · cases hys : seqE ys with
        | error e => rw [hys] at h; cases h
        | ok as => exact ih hys x hx2

theorem seqE_error_mem {α : Type} {l : List (Except TFError α)} {e : TFError}
    (h : seqE l = .error e) : .error e ∈ l := by
  induction l with
  | nil => cases h
  | cons y ys ih =>
    simp only [seqE] at h
    cases y with
    | error e2 =>
      cases h
      exact List.mem_cons_self _ _
    | ok a =>
      cases hys : seqE ys with
      | error e2 =>
        rw [hys] at h
        cases h
        exact List.mem_cons_of_mem _ (ih hys)
      | ok as => rw [hys] at h; cases h

theorem seqE_cons_err {α : Type} (x : Except TFError α) (xs : List (Except TFError α)) :
    seqE (x :: xs) = match x with
      | .error e => .error e
      | .ok a => match seqE xs with
        | .error e => .error e
        | .ok as => .ok (a :: as) := rfl

theorem seqE_map_error {β : Type} {e : TFError} :
    ∀ {m : Nat} {f : Nat → Except TFError β} {n : Nat}, m < n →
      (∀ k, k < m → ∃ a, f k = .ok a) → f m = .error e →
      seqE ((List.range n).map f) = .error e := by
  intro m
  induction m with
  | zero =>
    intro f n hn _ herr
    cases n with
    | zero => cases hn
    | succ n =>
      rw [List.range_succ_eq_map, List.map_cons, herr]
      rfl
  | succ m ih =>
    intro f n hn hok herr
    cases n with
    | zero => cases hn
    | succ n =>
      rw [List.range_succ_eq_map]
      obtain ⟨a, ha⟩ := hok 0 (Nat.succ_pos m)
      have tail : seqE ((List.range n).map (f ∘ Nat.succ)) = .error e := by
        refine ih (by omega) ?_ herr
        intro k hk
        exact hok (k + 1) (by omega)
      rw [List.map_cons, List.map_map, ha]
      show (match seqE ((List.range n).map (f ∘ Nat.succ)) with
        | .error e2 => (.error e2 : Except TFError (List β))
        | .ok as => .ok (a :: as)) = .error e
      rw [tail]

theorem getD_map_range {β : Type} (f : Nat → β) {n i : Nat} (hi : i < n) (d : β) :
    ((List.range n).map f).getD i d = f i := by
  rw [List.getD_eq_getElem _ _ (by simpa using hi)]
  simp

theorem np_cumsum_length (ns : List Nat) : (np_cumsum ns).length = ns.length := by
  induction ns with
  | nil => rfl
  | cons x xs ih => simp [np_cumsum, ih]

theorem np_cumsum_getD (ns : List Nat) : ∀ (l : Nat), l < ns.length →
    (np_cumsum ns).getD l 0 = (ns.take (l + 1)).sum := by
  induction ns with
  | nil => intro l hl; cases hl
  | cons x xs ih =>
    intro l hl
    cases l with
    | zero => simp [np_cumsum]
    | succ l =>
      have hl' : l < xs.length := by simpa using hl
      have hlen : l < ((np_cumsum xs).map (fun c => x + c)).length := by
        simp [np_cumsum_length, hl']
      simp only [np_cumsum, List.getD_cons_succ]
      rw [List.getD_eq_getElem _ _ hlen, List.getElem_map,
        ← List.getD_eq_getElem (np_cumsum xs) _ (by simpa [np_cumsum_length] using hl'),
        ih l hl']
      simp [List.take_succ_cons]

theorem np_cumsum_zero_cons_getD (ns : List Nat) (l : Nat) (hl : l ≤ ns.length) :
    (np_cumsum (0 :: ns)).getD l 0 = (ns.take l).sum := by
  cases l with
  | zero => simp [np_cumsum]
  | succ l =>
    have hl' : l < ns.length := hl
    have h0 : np_cumsum (0 :: ns) = 0 :: np_cumsum ns := by
      simp [np_cumsum]
    rw [h0, List.getD_cons_succ, np_cumsum_getD ns l hl']

theorem rotate_one_dropLast (l : List Nat) (h : l ≠ []) :
    (l.rotate 1).dropLast = l.drop 1 := by
  cases l with
  | nil => cases h rfl
  | cons a as => simp [List.rotate_cons_succ, List.dropLast_concat]

theorem sum_map_add_split (f g : Nat → Nat) (n : Nat) :
    ((List.range n).map (fun l => f l + g l)).sum =
      ((List.range n).map f).sum + ((List.range n).map g).sum := by
  induction n with
  | zero => rfl
  | succ n ih => simp [List.range_succ, ih]; omega

theorem list_sum_range_eq (f : Nat → ℚ) (n : Nat) :
    ((List.range n).map f).sum = ∑ j ∈ Finset.range n, f j := by
  induction n with
  | zero => rfl
  | succ n ih => simp [List.range_succ, Finset.sum_range_succ, ih]

theorem exists_segment : ∀ (ns : List Nat) (n : Nat), n < ns.sum →
    ∃ l, l < ns.length ∧ (ns.take l).sum ≤ n ∧ n < (ns.take (l + 1)).sum := by
  intro ns
  induction ns with
  | nil => intro n h; simp at h
  | cons x xs ih =>
    intro n h
    by_cases hx : n < x
    · exact ⟨0, by simp, by simp, by simpa using hx⟩
    · have h2 : n - x < xs.sum := by simp at h; omega
      obtain ⟨l, hl, h3, h4⟩ := ih (n - x) h2
      refine ⟨l + 1, by simpa using hl, ?_, ?_⟩
      · simp [List.take_succ_cons]; omega
      · simp [List.take_succ_cons]; omega

theorem self_eq_map_range_getD {α : Type} (xs : List α) (d : α) :
    xs = (List.range xs.length).map (fun i => xs.getD i d) := by
  apply List.ext_getElem
  · simp
  · intro i h1 h2
    simp [List.getElem?_eq_getElem h1]

theorem drop_take_flatten {α : Type} :
    ∀ (cs : List (List α)) (tail : List α) (l : Nat), l < cs.length →
      (((cs.flatten ++ tail).drop (((cs.map List.length).take l).sum)).take
        ((cs.map List.length).getD l 0)) = cs.getD l [] := by
  intro cs
  induction cs with
  | nil => intro tail l hl; cases hl
  | cons c cs ih =>
    intro tail l hl
    cases l with
    | zero =>
      simp only [List.map_cons, List.take_zero, List.sum_nil, List.drop_zero,
        List.getD_cons_zero, List.flatten_cons, List.append_assoc]
      exact List.take_left' rfl
    | succ l =>
      have hl' : l < cs.length := by simpa using hl
      simp only [List.map_cons, List.take_succ_cons, List.sum_cons,
        List.getD_cons_succ, List.flatten_cons, List.append_assoc]
      rw [← List.drop_drop, List.drop_left' rfl]
      exact ih (tail) l hl'

theorem drop_take_map_range {β : Type} (g : Nat → β) (m n r : Nat) (hr : r < m) :
    (((List.range (m * n)).map g).drop (r * n)).take n =
      (List.range n).map (fun j => g (r * n + j)) := by
  have hmul : (r + 1) * n ≤ m * n := Nat.mul_le_mul_right n hr
  rw [Nat.succ_mul] at hmul
  apply List.ext_getElem
  · simp only [List.length_take, List.length_drop, List.length_map, List.length_range]
    omega
  · intro k h1 h2
    have hk : k < n := by simpa using h2
    have hbound : r * n + k < m * n := by omega
    simp [List.getElem_take, List.getElem_drop, hbound]

theorem getD_map_of_lt {α β : Type} (f : α → β) (l : List α) {i : Nat} (hi : i < l.length)
    (d : α) (d2 : β) : (l.map f).getD i d2 = f (l.getD i d) := by
  rw [List.getD_eq_getElem _ _ (by simpa using hi), List.getElem_map,
    List.getD_eq_getElem _ _ hi]

theorem getElem?_eq_some_getD {α : Type} (l : List α) {i : Nat} (hi : i < l.length) (d : α) :
    l[i]? = some (l.getD i d) := by
  rw [List.getElem?_eq_getElem hi, List.getD_eq_getElem _ _ hi]

theorem except_bind_ok {α β : Type} {x : Except TFError α} {f : α → Except TFError β} {a : α}
    (hx : x = .ok a) : x >>= f = f a := by
  rw [hx]; rfl

theorem except_bind_err {α β : Type} {x : Except TFError α} {f : α → Except TFError β}
    {e : TFError} (hx : x = .error e) : x >>= f = .error e := by
  rw [hx]; rfl

theorem except_bind_ok_inv {α β : Type} {x : Except TFError α} {f : α → Except TFError β}
    {b : β} (h : x >>= f = .ok b) : ∃ a, x = .ok a ∧ f a = .ok b := by
  cases x with
  | ok a => exact ⟨a, rfl, h⟩
  | error e => exact absurd h (by simp [Bind.bind, Except.bind])

/-! ### Offset bookkeeping for the flat layout -/

theorem woff_succ (layers : List Nat) (l : Nat) :
    woff layers (l + 1) = woff layers l + wsize layers l := by
  simp [woff, List.range_succ]

theorem woff_mono (layers : List Nat) {l m : Nat} (h : l ≤ m) :
    woff layers l ≤ woff layers m := by
  induction m with
  | zero =>
    have : l = 0 := by omega
    simp [this]
  | succ m ih =>
    rcases Nat.lt_or_ge l (m + 1) with h2 | h2
    · have h3 := ih (by omega)
      rw [woff_succ]
      omega
    · have h3 : l = m + 1 := by omega
      rw [h3]

theorem boff_succ (layers : List Nat) (l : Nat) :
    boff layers (l + 1) = boff layers l + bsize layers l := by
  simp [boff, List.range_succ]
  omega

theorem boff_mono (layers : List Nat) {l m : Nat} (h : l ≤ m) :
    boff layers l ≤ boff layers m := by
  induction m with
  | zero =>
    have : l = 0 := by omega
    simp [this]
  | succ m ih =>
    rcases Nat.lt_or_ge l (m + 1) with h2 | h2
    · have h3 := ih (by omega)
      rw [boff_succ]
      omega
    · have h3 : l = m + 1 := by omega
      rw [h3]

theorem P_split (layers : List Nat) :
    P layers = woff layers (layers.length - 1) +
      ((List.range (layers.length - 1)).map (bsize layers)).sum := by
  unfold P woff
  rw [← sum_map_add_split]
  simp [wsize, bsize]

theorem boff_last (layers : List Nat) :
    boff layers (layers.length - 1) = P layers := by
  rw [P_split]
  rfl

theorem woff_le_P (layers : List Nat) (l : Nat) (hl : l ≤ layers.length - 1) :
    woff layers l ≤ P layers := by
  have h1 := woff_mono layers hl
  rw [P_split]
  omega

theorem boff_le_P (layers : List Nat) (l : Nat) (hl : l ≤ layers.length - 1) :
    boff layers l ≤ P layers := by
  have h1 := boff_mono layers hl
  rw [← boff_last]
  exact h1

/-! ### The index tables `winds` and `binds` computed by `unflatten` -/

theorem zip_sizes_eq (layers : List Nat) (h : layers ≠ []) :
    List.zipWith (· * ·) ((layers.rotate 1).dropLast) layers.dropLast
      = (List.range (layers.length - 1)).map (wsize layers) := by
  rw [rotate_one_dropLast layers h]
  apply List.ext_getElem
  · simp
  · intro i h1 h2
    have hi : i < layers.length - 1 := by
      simpa using h2
    have hi1 : i + 1 < layers.length := by omega
    have hi0 : i < layers.length := by omega
    simp only [List.getElem_zipWith, List.getElem_dropLast, List.getElem_drop,
      List.getElem_map, List.getElem_range]
    rw [wsize, List.getD_eq_getElem _ _ hi0, List.getD_eq_getElem _ _ hi1]
    simp only [Nat.add_comm 1 i]
    rw [Nat.mul_comm]

theorem winds_getD (layers : List Nat) (h : layers ≠ []) (l : Nat)
    (hl : l ≤ layers.length - 1) :
    (np_cumsum (0 :: List.zipWith (· * ·) ((layers.rotate 1).dropLast)
      layers.dropLast)).getD l 0 = woff layers l := by
  rw [zip_sizes_eq layers h, np_cumsum_zero_cons_getD _ _ (by simpa using hl),
    ← List.map_take, List.take_range, Nat.min_eq_left hl]
  rfl

theorem winds_length (layers : List Nat) (h : layers ≠ []) :
    (np_cumsum (0 :: List.zipWith (· * ·) ((layers.rotate 1).dropLast)
      layers.dropLast)).length = layers.length := by
  have h1 : 1 ≤ layers.length := by
    cases layers with
    | nil => cases h rfl
    | cons a as => simp
  rw [np_cumsum_length, rotate_one_dropLast layers h]
  simp only [List.length_cons, List.length_zipWith, List.length_dropLast, List.length_drop]
  omega

theorem drop_one_take_eq (layers : List Nat) (l : Nat) (hl : l + 1 ≤ layers.length - 1) :
    (layers.drop 1).take (l + 1) = (List.range (l + 1)).map (bsize layers) := by
  apply List.ext_getElem
  · simp
    omega
  · intro k h1 h2
    have hk : k < l + 1 := by simpa using h2
    have hk1 : k + 1 < layers.length := by omega
    simp only [List.getElem_take, List.getElem_drop, List.getElem_map, List.getElem_range]
    rw [bsize, List.getD_eq_getElem _ _ hk1]
    simp only [Nat.add_comm 1 k]

theorem binds_getD (layers : List Nat) (l : Nat) (hl : l ≤ layers.length - 1) :
    ((woff layers (layers.length - 1)) :: (np_cumsum (layers.drop 1)).map
      (fun c => woff layers (layers.length - 1) + c)).getD l 0 = boff layers l := by
  cases l with
  | zero => simp [boff]
  | succ l =>
    have hl' : l < (layers.drop 1).length := by
      simp only [List.length_drop]
      omega
    have hlen : l < ((np_cumsum (layers.drop 1)).map
        (fun c => woff layers (layers.length - 1) + c)).length := by
      simpa [np_cumsum_length] using hl'
    rw [List.getD_cons_succ, List.getD_eq_getElem _ _ hlen, List.getElem_map,
      ← List.getD_eq_getElem (np_cumsum (layers.drop 1)) 0 (by simpa [np_cumsum_length] using hl'),
      np_cumsum_getD _ _ hl', drop_one_take_eq layers l hl]
    simp [boff]

/-! ### Characterization of `flatten` on conforming parameters -/

theorem pyIdx_ok {α : Type} (l : List α) {i : Nat} (hi : i < l.length) (d : α) :
    pyIdx l i = .ok (l.getD i d) := by
  rw [pyIdx, getElem?_eq_some_getD l hi d]

theorem pyIdx_err {α : Type} (l : List α) {i : Nat} (hi : l.length ≤ i) :
    pyIdx l i = .error .indexError := by
  rw [pyIdx, List.getElem?_eq_none hi]

theorem tfConcat1_ok {α : Type} (ts : List (Tensor α)) (h0 : 0 < ts.length)
    (h1 : ∀ t ∈ ts, t.shape = [t.data.length]) :
    tfConcat1 ts = .ok ⟨[(ts.map (fun t => t.data.length)).sum],
      (ts.map (fun t => t.data)).flatten⟩ := by
  rw [tfConcat1, if_pos ⟨h0, h1⟩]

theorem tfConcat1_pair {α : Type} (n1 n2 : Nat) (d1 d2 : List α)
    (h1 : d1.length = n1) (h2 : d2.length = n2) :
    tfConcat1 [⟨[n1], d1⟩, ⟨[n2], d2⟩] = .ok ⟨[n1 + n2], d1 ++ d2⟩ := by
  rw [tfConcat1, if_pos]
  · simp [h1, h2]
  · refine ⟨by simp, ?_⟩
    intro t ht
    rcases List.mem_cons.mp ht with rfl | ht2
    · simp [h1]
    · rcases List.mem_cons.mp ht2 with rfl | ht3
      · simp [h2]
      · cases ht3

theorem flatten_conforming {α : Type} (layers : List Nat) (ps : List (Tensor α))
    (hL : 2 ≤ layers.length) (hc : Conforms layers ps) :
    flatten layers ps = .ok ⟨[P layers],
      ((List.range (layers.length - 1)).map (fun l => (ps.getD l ⟨[], []⟩).data)).flatten ++
      ((List.range (layers.length - 1)).map
        (fun l => (ps.getD (l + (layers.length - 1)) ⟨[], []⟩).data)).flatten⟩ := by
  obtain ⟨hlen, hw, hb⟩ := hc
  have hL1 : 1 ≤ layers.length - 1 := by omega
  have h1 : seqE ((List.range (layers.length - 1)).map (fun l =>
      pyIdx ps l >>= fun t => tfReshape t [layers.getD l 0 * layers.getD (l + 1) 0])) =
      .ok ((List.range (layers.length - 1)).map (fun l =>
        (⟨[layers.getD l 0 * layers.getD (l + 1) 0], (ps.getD l ⟨[], []⟩).data⟩ : Tensor α))) := by
    apply seqE_map_ok
    intro l hl
    have hl' : l < layers.length - 1 := List.mem_range.mp hl
    have hbound : l < ps.length := by omega
    rw [except_bind_ok (pyIdx_ok ps hbound ⟨[], []⟩)]
    have hdl := (hw l hl').2
    rw [wsize] at hdl
    rw [tfReshape, List.prod_singleton, if_pos hdl]
  have hcw : ∀ t ∈ (List.range (layers.length - 1)).map (fun l =>
      (⟨[layers.getD l 0 * layers.getD (l + 1) 0], (ps.getD l ⟨[], []⟩).data⟩ : Tensor α)),
      t.shape = [t.data.length] := by
    intro t ht
    obtain ⟨l, hl, rfl⟩ := List.mem_map.mp ht
    have hl' := List.mem_range.mp hl
    have hdl := (hw l hl').2
    rw [wsize] at hdl
    show ([layers.getD l 0 * layers.getD (l + 1) 0] : List Nat) =
      [(ps.getD l ⟨[], []⟩).data.length]
    rw [hdl]
  have h2 := tfConcat1_ok ((List.range (layers.length - 1)).map (fun l =>
      (⟨[layers.getD l 0 * layers.getD (l + 1) 0], (ps.getD l ⟨[], []⟩).data⟩ : Tensor α)))
    (by simp; omega) hcw
  have e1 : ((((List.range (layers.length - 1)).map (fun l =>
      (⟨[layers.getD l 0 * layers.getD (l + 1) 0], (ps.getD l ⟨[], []⟩).data⟩ : Tensor α))).map
        (fun t => t.data.length)).sum) = woff layers (layers.length - 1) := by
    rw [List.map_map, woff]
    apply congrArg
    apply List.map_congr_left
    intro l hl
    have hl' := List.mem_range.mp hl
    simpa using (hw l hl').2
  have e2 : (((List.range (layers.length - 1)).map (fun l =>
      (⟨[layers.getD l 0 * layers.getD (l + 1) 0], (ps.getD l ⟨[], []⟩).data⟩ : Tensor α))).map
        (fun t => t.data)) = (List.range (layers.length - 1)).map
          (fun l => (ps.getD l ⟨[], []⟩).data) := by
    rw [List.map_map]
    rfl
  rw [e1, e2] at h2
  have h3 : seqE ((List.range (layers.length - 1)).map (fun l =>
      pyIdx ps (l + (layers.length - 1)))) =
      .ok ((List.range (layers.length - 1)).map (fun l =>
        ps.getD (l + (layers.length - 1)) ⟨[], []⟩)) := by
    apply seqE_map_ok
    intro l hl
    have hl' : l < layers.length - 1 := List.mem_range.mp hl
    have hbound : l + (layers.length - 1) < ps.length := by omega
    exact pyIdx_ok ps hbound ⟨[], []⟩
  have hcb : ∀ t ∈ (List.range (layers.length - 1)).map (fun l =>
      ps.getD (l + (layers.length - 1)) ⟨[], []⟩), t.shape = [t.data.length] := by
    intro t ht
    obtain ⟨l, hl, rfl⟩ := List.mem_map.mp ht
    have hl' := List.mem_range.mp hl
    rw [(hb l hl').1, (hb l hl').2, bsize]
  have h4 := tfConcat1_ok ((List.range (layers.length - 1)).map (fun l =>
      ps.getD (l + (layers.length - 1)) ⟨[], []⟩)) (by simp; omega) hcb
  have e3 : ((((List.range (layers.length - 1)).map (fun l =>
      ps.getD (l + (layers.length - 1)) ⟨[], []⟩)).map (fun t => t.data.length)).sum) =
      ((List.range (layers.length - 1)).map (bsize layers)).sum := by
    rw [List.map_map]
    apply congrArg
    apply List.map_congr_left
    intro l hl
    have hl' := List.mem_range.mp hl
    simpa using (hb l hl').2
  have e4 : (((List.range (layers.length - 1)).map (fun l =>
      ps.getD (l + (layers.length - 1)) ⟨[], []⟩)).map (fun t => t.data)) =
      (List.range (layers.length - 1)).map
        (fun l => (ps.getD (l + (layers.length - 1)) ⟨[], []⟩).data) := by
    rw [List.map_map]
    rfl
  rw [e3, e4] at h4
  have hJlen : (((List.range (layers.length - 1)).map
      (fun l => (ps.getD l ⟨[], []⟩).data)).flatten).length =
      woff layers (layers.length - 1) := by
    rw [List.length_flatten, List.map_map, woff]
    apply congrArg
    apply List.map_congr_left
    intro l hl
    have hl' := List.mem_range.mp hl
    simpa using (hw l hl').2
  have hKlen : (((List.range (layers.length - 1)).map
      (fun l => (ps.getD (l + (layers.length - 1)) ⟨[], []⟩).data)).flatten).length =
      ((List.range (layers.length - 1)).map (bsize layers)).sum := by
    rw [List.length_flatten, List.map_map]
    apply congrArg
    apply List.map_congr_left
    intro l hl
    have hl' := List.mem_range.mp hl
    simpa using (hb l hl').2
  simp only [flatten, except_bind_ok h1, except_bind_ok h2, except_bind_ok h3,
    except_bind_ok h4, tfConcat1_pair _ _ _ _ hJlen hKlen]
  rw [← P_split]

/-! ### Characterization of `unflatten` on vectors of length at least `P` -/

theorem seqE_map_pure {α β : Type} (xs : List α) (g : α → β) :
    seqE (xs.map (fun x => (.ok (g x) : Except TFError β))) = .ok (xs.map g) :=
  seqE_map_ok xs (fun _ _ => rfl)

theorem except_ok_bind {α β : Type} (a : α) (f : α → Except TFError β) :
    (Except.ok a : Except TFError α) >>= f = f a := rfl

theorem drop_append_add {α : Type} (A B : List α) (n : Nat) :
    (A ++ B).drop (A.length + n) = B.drop n := by
  induction A with
  | nil => simp
  | cons a A ih =>
    simp only [List.cons_append, List.length_cons]
    rw [Nat.succ_add, List.drop_succ_cons]
    exact ih

theorem wdata_flatten_length {α : Type} (layers : List Nat) (ps : List (Tensor α))
    (hc : Conforms layers ps) :
    (((List.range (layers.length - 1)).map
      (fun l => (ps.getD l ⟨[], []⟩).data)).flatten).length =
      woff layers (layers.length - 1) := by
  rw [List.length_flatten, List.map_map, woff]
  apply congrArg
  apply List.map_congr_left
  intro l hl
  have hl' := List.mem_range.mp hl
  simpa using (hc.2.1 l hl').2

theorem bdata_flatten_length {α : Type} (layers : List Nat) (ps : List (Tensor α))
    (hc : Conforms layers ps) :
    (((List.range (layers.length - 1)).map
      (fun l => (ps.getD (l + (layers.length - 1)) ⟨[], []⟩).data)).flatten).length =
      ((List.range (layers.length - 1)).map (bsize layers)).sum := by
  rw [List.length_flatten, List.map_map]
  apply congrArg
  apply List.map_congr_left
  intro l hl
  have hl' := List.mem_range.mp hl
  simpa using (hc.2.2 l hl').2

theorem unflatten_ok {α : Type} (layers : List Nat) (hL : 2 ≤ layers.length)
    (t : Tensor α) (hlen : P layers ≤ t.data.length) :
    unflatten layers t = .ok (
      (List.range (layers.length - 1)).map (fun l =>
        ⟨[layers.getD l 0, layers.getD (l + 1) 0],
         (t.data.drop (woff layers l)).take (wsize layers l)⟩) ++
      (List.range (layers.length - 1)).map (fun l =>
        ⟨[layers.getD (l + 1) 0],
         (t.data.drop (boff layers l)).take (bsize layers l)⟩)) := by
  have hne : layers ≠ [] := by
    intro hh
    rw [hh] at hL
    simp at hL
  have hmapW : (List.range (layers.length - 1)).map (fun l =>
      tfReshape (tfSlice1 t
        ((np_cumsum (0 :: List.zipWith (· * ·) ((layers.rotate 1).dropLast)
          layers.dropLast)).getD l 0)
        ((np_cumsum (0 :: List.zipWith (· * ·) ((layers.rotate 1).dropLast)
          layers.dropLast)).getD (l + 1) 0))
      [layers.getD l 0, layers.getD (l + 1) 0]) =
      (List.range (layers.length - 1)).map (fun l =>
        (.ok (⟨[layers.getD l 0, layers.getD (l + 1) 0],
          (t.data.drop (woff layers l)).take (wsize layers l)⟩ : Tensor α) :
            Except TFError (Tensor α))) := by
    apply List.map_congr_left
    intro l hl
    have hl' := List.mem_range.mp hl
    rw [winds_getD layers hne l (by omega), winds_getD layers hne (l + 1) (by omega)]
    have hsub : woff layers (l + 1) - woff layers l = wsize layers l := by
      rw [woff_succ]
      omega
    have hP : woff layers (l + 1) ≤ t.data.length :=
      le_trans (woff_le_P layers (l + 1) (by omega)) hlen
    have hcond : ((t.data.drop (woff layers l)).take (wsize layers l)).length
        = ([layers.getD l 0, layers.getD (l + 1) 0] : List Nat).prod := by
      rw [List.length_take, List.length_drop, List.prod_cons, List.prod_singleton, ← wsize]
      have h2 := woff_succ layers l
      omega
    simp only [tfSlice1, tfReshape, hsub]
    rw [if_pos hcond]

  have hwlast : ((np_cumsum (0 :: List.zipWith (· * ·) ((layers.rotate 1).dropLast)
      layers.dropLast)).getD ((np_cumsum (0 :: List.zipWith (· * ·)
        ((layers.rotate 1).dropLast) layers.dropLast)).length - 1) 0) =
      woff layers (layers.length - 1) := by
    rw [winds_length layers hne, winds_getD layers hne _ le_rfl]
  have hmapB : (List.range (layers.length - 1)).map (fun l =>
      tfReshape (tfSlice1 t
        (((woff layers (layers.length - 1)) :: (np_cumsum (layers.drop 1)).map
          (fun c => woff layers (layers.length - 1) + c)).getD l 0)
        (((woff layers (layers.length - 1)) :: (np_cumsum (layers.drop 1)).map
          (fun c => woff layers (layers.length - 1) + c)).getD (l + 1) 0))
      [layers.getD (l + 1) 0]) =
      (List.range (layers.length - 1)).map (fun l =>
        (.ok (⟨[layers.getD (l + 1) 0],
          (t.data.drop (boff layers l)).take (bsize layers l)⟩ : Tensor α) :
            Except TFError (Tensor α))) := by
    apply List.map_congr_left
    intro l hl
    have hl' := List.mem_range.mp hl
    rw [binds_getD layers l (by omega), binds_getD layers (l + 1) (by omega)]
    have hsub : boff layers (l + 1) - boff layers l = bsize layers l := by
      rw [boff_succ]
      omega
    have hP : boff layers (l + 1) ≤ t.data.length :=
      le_trans (boff_le_P layers (l + 1) (by omega)) hlen
    have hcond : ((t.data.drop (boff layers l)).take (bsize layers l)).length
        = ([layers.getD (l + 1) 0] : List Nat).prod := by
      rw [List.length_take, List.length_drop, List.prod_singleton, ← bsize]
      have h2 := boff_succ layers l
      omega
    simp only [tfSlice1, tfReshape, hsub]
    rw [if_pos hcond]
  simp only [unflatten, hwlast, hmapW, hmapB, seqE_map_pure, except_ok_bind]

theorem conforms_decomp {α : Type} (layers : List Nat) (ps : List (Tensor α))
    (hlen : ps.length = 2 * (layers.length - 1)) :
    ps = (List.range (layers.length - 1)).map (fun l => ps.getD l ⟨[], []⟩) ++
      (List.range (layers.length - 1)).map
        (fun l => ps.getD (l + (layers.length - 1)) ⟨[], []⟩) := by
  apply List.ext_getElem
  · simp [hlen]
    omega
  · intro i h1 h2
    by_cases hi : i < layers.length - 1
    · rw [List.getElem_append_left (by simpa using hi)]
      rw [List.getElem_map, List.getElem_range,
        List.getD_eq_getElem _ _ (by omega)]
    · have hlm : (List.map (fun l => ps.getD l (⟨[], []⟩ : Tensor α))
          (List.range (layers.length - 1))).length = layers.length - 1 := by
        simp
      have hge : (List.map (fun l => ps.getD l ⟨[], []⟩)
          (List.range (layers.length - 1))).length ≤ i := by
        rw [hlm]
        omega
      rw [List.getElem_append_right hge]
      rw [List.getElem_map, List.getElem_range,
        List.getD_eq_getElem _ _ (by rw [hlm]; omega)]
      have hidx : (i - (List.map (fun l => ps.getD l ⟨[], []⟩)
          (List.range (layers.length - 1))).length) + (layers.length - 1) = i := by
        rw [hlm]
        omega
      simp only [hidx]

theorem roundtrip_aux {α : Type} (layers : List Nat) (ps : List (Tensor α))
    (hL : 2 ≤ layers.length) (hc : Conforms layers ps) :
    unflatten layers (⟨[P layers],
      ((List.range (layers.length - 1)).map (fun l => (ps.getD l ⟨[], []⟩).data)).flatten ++
      ((List.range (layers.length - 1)).map
        (fun l => (ps.getD (l + (layers.length - 1)) ⟨[], []⟩).data)).flatten⟩ : Tensor α) =
      .ok ps := by
  have hJ := wdata_flatten_length layers ps hc
  have hK := bdata_flatten_length layers ps hc
  have hlen2 : P layers ≤ ((((List.range (layers.length - 1)).map
      (fun l => (ps.getD l ⟨[], []⟩).data)).flatten ++
      ((List.range (layers.length - 1)).map
        (fun l => (ps.getD (l + (layers.length - 1)) ⟨[], []⟩).data)).flatten) : List α).length := by
    rw [List.length_append, hJ, hK, ← P_split]
  rw [unflatten_ok layers hL _ hlen2]
  congr 1
  have hW : (List.range (layers.length - 1)).map (fun l =>
      (⟨[layers.getD l 0, layers.getD (l + 1) 0],
        (((((List.range (layers.length - 1)).map (fun k => (ps.getD k ⟨[], []⟩).data)).flatten ++
          ((List.range (layers.length - 1)).map
            (fun k => (ps.getD (k + (layers.length - 1)) ⟨[], []⟩).data)).flatten) :
              List α).drop (woff layers l)).take (wsize layers l)⟩ : Tensor α)) =
      (List.range (layers.length - 1)).map (fun l => ps.getD l ⟨[], []⟩) := by
    apply List.map_congr_left
    intro l hl
    have hl' := List.mem_range.mp hl
    have hoff : ((((List.range (layers.length - 1)).map
        (fun k => (ps.getD k ⟨[], []⟩).data)).map List.length).take l).sum = woff layers l := by
      rw [List.map_map, ← List.map_take, List.take_range, Nat.min_eq_left (by omega), woff]
      apply congrArg
      apply List.map_congr_left
      intro k hk
      have hk' := List.mem_range.mp hk
      simpa using (hc.2.1 k (by omega)).2
    have hsz : ((((List.range (layers.length - 1)).map
        (fun k => (ps.getD k ⟨[], []⟩).data)).map List.length)).getD l 0 = wsize layers l := by
      rw [List.map_map, getD_map_range _ hl']
      simpa using (hc.2.1 l hl').2
    have hslice := drop_take_flatten ((List.range (layers.length - 1)).map
        (fun k => (ps.getD k ⟨[], []⟩).data))
      (((List.range (layers.length - 1)).map
        (fun k => (ps.getD (k + (layers.length - 1)) ⟨[], []⟩).data)).flatten) l
      (by simpa using hl')
    rw [hoff, hsz, getD_map_range _ hl'] at hslice
    rw [hslice, ← (hc.2.1 l hl').1]
  have hB : (List.range (layers.length - 1)).map (fun l =>
      (⟨[layers.getD (l + 1) 0],
        (((((List.range (layers.length - 1)).map (fun k => (ps.getD k ⟨[], []⟩).data)).flatten ++
          ((List.range (layers.length - 1)).map
            (fun k => (ps.getD (k + (layers.length - 1)) ⟨[], []⟩).data)).flatten) :
              List α).drop (boff layers l)).take (bsize layers l)⟩ : Tensor α)) =
      (List.range (layers.length - 1)).map
        (fun l => ps.getD (l + (layers.length - 1)) ⟨[], []⟩) := by
    apply List.map_congr_left
    intro l hl
    have hl' := List.mem_range.mp hl
    have hboff : boff layers l = (((List.range (layers.length - 1)).map
        (fun k => (ps.getD k ⟨[], []⟩).data)).flatten).length +
        ((List.range l).map (bsize layers)).sum := by
      rw [hJ, boff]
    rw [hboff, drop_append_add]
    have hoffB : ((((List.range (layers.length - 1)).map
        (fun k => (ps.getD (k + (layers.length - 1)) ⟨[], []⟩).data)).map
          List.length).take l).sum = ((List.range l).map (bsize layers)).sum := by
      rw [List.map_map, ← List.map_take, List.take_range, Nat.min_eq_left (by omega)]
      apply congrArg
      apply List.map_congr_left
      intro k hk
      have hk' := List.mem_range.mp hk
      simpa using (hc.2.2 k (by omega)).2
    have hszB : ((((List.range (layers.length - 1)).map
        (fun k => (ps.getD (k + (layers.length - 1)) ⟨[], []⟩).data)).map
          List.length)).getD l 0 = bsize layers l := by
      rw [List.map_map, getD_map_range _ hl']
      simpa using (hc.2.2 l hl').2
    have hslice := drop_take_flatten ((List.range (layers.length - 1)).map
        (fun k => (ps.getD (k + (layers.length - 1)) ⟨[], []⟩).data)) [] l
      (by simpa using hl')
    rw [List.append_nil, hoffB, hszB, getD_map_range _ hl'] at hslice
    rw [hslice, ← (hc.2.2 l hl').1]
  rw [hW, hB, ← conforms_decomp layers ps hc.1]

instance decConforms {α : Type} [DecidableEq α] (layers : List Nat) (ps : List (Tensor α)) :
    Decidable (Conforms layers ps) := by
  unfold Conforms
  exact inferInstance

/-! ### Claim C1 -/

/-- C1: for every StructuredParameters list `p` conforming to the
LayerSchema (L weight tensors of shape `(layers[l], layers[l+1])`
followed by L bias vectors of shape `(layers[l+1],)`),
`unflatten(flatten(p))` returns a list equal to `p`: same number of
tensors, same shapes, same values. -/
theorem unflatten_flatten_roundtrip {α : Type} (layers : List Nat) (ps : List (Tensor α))
    (hL : 2 ≤ layers.length) (hc : Conforms layers ps) :
    (flatten layers ps) >>= unflatten layers = .ok ps := by
  rw [except_bind_ok (flatten_conforming layers ps hL hc)]
  exact roundtrip_aux layers ps hL hc

/-- Witness for C1 at the spec's example schema `layers = [2,3,1]`. -/
theorem unflatten_flatten_roundtrip_witness :
    (2 ≤ ([2, 3, 1] : List Nat).length) ∧
    Conforms [2, 3, 1] ([⟨[2, 3], [0, 1, 2, 3, 4, 5]⟩, ⟨[3, 1], [6, 7, 8]⟩,
      ⟨[3], [9, 10, 11]⟩, ⟨[1], [12]⟩] : List (Tensor ℚ)) ∧
    (flatten [2, 3, 1] ([⟨[2, 3], [0, 1, 2, 3, 4, 5]⟩, ⟨[3, 1], [6, 7, 8]⟩,
      ⟨[3], [9, 10, 11]⟩, ⟨[1], [12]⟩] : List (Tensor ℚ))) >>= unflatten [2, 3, 1] =
      .ok [⟨[2, 3], [0, 1, 2, 3, 4, 5]⟩, ⟨[3, 1], [6, 7, 8]⟩,
        ⟨[3], [9, 10, 11]⟩, ⟨[1], [12]⟩] :=
  ⟨by decide, by decide,
    unflatten_flatten_roundtrip [2, 3, 1] _ (by decide) (by decide)⟩

/-! ### The canonical variable-numbered parameters -/

theorem getD_append_left {α : Type} (A B : List α) {i : Nat} (hi : i < A.length) (d : α) :
    (A ++ B).getD i d = A.getD i d := by
  rw [List.getD_eq_getElem _ _ (by simp; omega), List.getD_eq_getElem _ _ hi,
    List.getElem_append_left hi]

theorem getD_append_right {α : Type} (A B : List α) {i : Nat} (hi : A.length ≤ i)
    (hi2 : i < A.length + B.length) (d : α) :
    (A ++ B).getD i d = B.getD (i - A.length) d := by
  rw [List.getD_eq_getElem _ _ (by simp; omega), List.getD_eq_getElem _ _ (by omega),
    List.getElem_append_right hi]

theorem canonical_getD_w (layers : List Nat) (l : Nat) (hl : l < layers.length - 1) :
    (canonicalParams layers).getD l ⟨[], []⟩ =
      ⟨[layers.getD l 0, layers.getD (l + 1) 0],
       List.range' (woff layers l) (wsize layers l)⟩ := by
  rw [canonicalParams, getD_append_left _ _ (by simpa using hl), getD_map_range _ hl]

theorem canonical_getD_b (layers : List Nat) (l : Nat) (hl : l < layers.length - 1) :
    (canonicalParams layers).getD (l + (layers.length - 1)) ⟨[], []⟩ =
      ⟨[layers.getD (l + 1) 0], List.range' (boff layers l) (bsize layers l)⟩ := by
  rw [canonicalParams, getD_append_right _ _ (by simp) (by simp; omega)]
  have hidx : l + (layers.length - 1) - (((List.range (layers.length - 1)).map (fun l =>
      (⟨[layers.getD l 0, layers.getD (l + 1) 0],
        List.range' (woff layers l) (wsize layers l)⟩ : Tensor Nat))).length) = l := by
    simp
  rw [hidx, getD_map_range _ hl]

theorem canonical_conforms (layers : List Nat) :
    Conforms layers (canonicalParams layers) := by
  refine ⟨by simp [canonicalParams]; omega, ?_, ?_⟩
  · intro l hl
    rw [canonical_getD_w layers l hl]
    exact ⟨rfl, by simp⟩
  · intro l hl
    rw [canonical_getD_b layers l hl]
    exact ⟨rfl, by simp [bsize]⟩

theorem conforms_tfGradients (layers : List Nat) (cost : Expr) (ps : List (Tensor Nat))
    (hc : Conforms layers ps) : Conforms layers (tfGradients cost ps) := by
  obtain ⟨h1, h2, h3⟩ := hc
  refine ⟨by simp [tfGradients, h1], ?_, ?_⟩
  · intro l hl
    have hb : l < ps.length := by omega
    rw [tfGradients, getD_map_of_lt _ ps hb ⟨[], []⟩]
    exact ⟨(h2 l hl).1, by simpa using (h2 l hl).2⟩
  · intro l hl
    have hb : l + (layers.length - 1) < ps.length := by omega
    rw [tfGradients, getD_map_of_lt _ ps hb ⟨[], []⟩]
    exact ⟨(h3 l hl).1, by simpa using (h3 l hl).2⟩

theorem range'_glue : ∀ (m : Nat) (a n : Nat),
    List.range' a m ++ List.range' (a + m) n = List.range' a (m + n) := by
  intro m
  induction m with
  | zero => intro a n; simp
  | succ m ih =>
    intro a n
    rw [List.range'_succ, Nat.succ_add, List.range'_succ, List.cons_append]
    have ha : a + (m + 1) = (a + 1) + m := by omega
    rw [ha, ih (a + 1) n]

theorem flatten_range'_chunks : ∀ (szs : List Nat) (a : Nat),
    (((List.range szs.length).map
      (fun l => List.range' (a + (szs.take l).sum) (szs.getD l 0))).flatten)
      = List.range' a szs.sum := by
  intro szs
  induction szs with
  | nil => intro a; simp
  | cons s rest ih =>
    intro a
    rw [List.length_cons, List.range_succ_eq_map, List.map_cons, List.map_map,
      List.flatten_cons]
    have hhead : a + (List.take 0 (s :: rest)).sum = a := by simp
    have hfun : ((fun l => List.range' (a + ((s :: rest).take l).sum)
        ((s :: rest).getD l 0)) ∘ Nat.succ) = (fun l =>
          List.range' ((a + s) + (rest.take l).sum) (rest.getD l 0)) := by
      funext l
      simp only [Function.comp_apply, List.take_succ_cons, List.sum_cons,
        List.getD_cons_succ]
      have : a + (s + (rest.take l).sum) = (a + s) + (rest.take l).sum := by omega
      rw [this]
    rw [hfun, ih (a + s)]
    simp only [hhead, List.take_zero, List.sum_nil, Nat.add_zero, List.getD_cons_zero,
      List.sum_cons]
    have : a + s = a + s := rfl
    rw [range'_glue s a rest.sum]

theorem flatten_grad_canonical (layers : List Nat) (hL : 2 ≤ layers.length) (cost : Expr) :
    flatten layers (tfGradients cost (canonicalParams layers)) =
      .ok ⟨[P layers], (List.range (P layers)).map (fun k => cost.grad k)⟩ := by
  rw [flatten_conforming layers _ hL
    (conforms_tfGradients layers cost _ (canonical_conforms layers))]
  congr 1
  refine congrArg _ ?_
  have hgw : (List.range (layers.length - 1)).map
      (fun l => ((tfGradients cost (canonicalParams layers)).getD l ⟨[], []⟩).data) =
      (List.range (layers.length - 1)).map
        (fun l => (List.range' (woff layers l) (wsize layers l)).map
          (fun k => cost.grad k)) := by
    apply List.map_congr_left
    intro l hl
    have hl' := List.mem_range.mp hl
    have hb : l < (canonicalParams layers).length := by
      have := (canonical_conforms layers).1
      omega
    rw [tfGradients, getD_map_of_lt _ _ hb ⟨[], []⟩, canonical_getD_w layers l hl']
  have hgb : (List.range (layers.length - 1)).map
      (fun l => ((tfGradients cost (canonicalParams layers)).getD
        (l + (layers.length - 1)) ⟨[], []⟩).data) =
      (List.range (layers.length - 1)).map
        (fun l => (List.range' (boff layers l) (bsize layers l)).map
          (fun k => cost.grad k)) := by
    apply List.map_congr_left
    intro l hl
    have hl' := List.mem_range.mp hl
    have hb : l + (layers.length - 1) < (canonicalParams layers).length := by
      have := (canonical_conforms layers).1
      omega
    rw [tfGradients, getD_map_of_lt _ _ hb ⟨[], []⟩, canonical_getD_b layers l hl']
  rw [hgw, hgb]
  have hJ : ((List.range (layers.length - 1)).map
      (fun l => (List.range' (woff layers l) (wsize layers l)).map
        (fun k => cost.grad k))).flatten =
      ((List.range (layers.length - 1)).map
        (fun l => List.range' (woff layers l) (wsize layers l))).flatten.map
          (fun k => cost.grad k) := by
    rw [List.map_flatten, List.map_map]
    rfl
  have hK : ((List.range (layers.length - 1)).map
      (fun l => (List.range' (boff layers l) (bsize layers l)).map
        (fun k => cost.grad k))).flatten =
      ((List.range (layers.length - 1)).map
        (fun l => List.range' (boff layers l) (bsize layers l))).flatten.map
          (fun k => cost.grad k) := by
    rw [List.map_flatten, List.map_map]
    rfl
  have hW : ((List.range (layers.length - 1)).map
      (fun l => List.range' (woff layers l) (wsize layers l))).flatten =
      List.range' 0 (woff layers (layers.length - 1)) := by
    have h1 := flatten_range'_chunks ((List.range (layers.length - 1)).map (wsize layers)) 0
    rw [List.length_map, List.length_range] at h1
    have h2 : (List.range (layers.length - 1)).map (fun l => List.range'
        (0 + (((List.range (layers.length - 1)).map (wsize layers)).take l).sum)
        (((List.range (layers.length - 1)).map (wsize layers)).getD l 0)) =
        (List.range (layers.length - 1)).map
          (fun l => List.range' (woff layers l) (wsize layers l)) := by
      apply List.map_congr_left
      intro l hl
      have hl' := List.mem_range.mp hl
      rw [← List.map_take, List.take_range, Nat.min_eq_left (by omega),
        getD_map_range _ hl', Nat.zero_add]
      rfl
    rw [h2] at h1
    rw [h1]
    have h3 : ((List.range (layers.length - 1)).map (wsize layers)).sum =
        woff layers (layers.length - 1) := rfl
    rw [h3]
  have hBB : ((List.range (layers.length - 1)).map
      (fun l => List.range' (boff layers l) (bsize layers l))).flatten =
      List.range' (woff layers (layers.length - 1))
        (((List.range (layers.length - 1)).map (bsize layers)).sum) := by
    have h1 := flatten_range'_chunks ((List.range (layers.length - 1)).map (bsize layers))
      (woff layers (layers.length - 1))
    rw [List.length_map, List.length_range] at h1
    have h2 : (List.range (layers.length - 1)).map (fun l => List.range'
        (woff layers (layers.length - 1) +
          (((List.range (layers.length - 1)).map (bsize layers)).take l).sum)
        (((List.range (layers.length - 1)).map (bsize layers)).getD l 0)) =
        (List.range (layers.length - 1)).map
          (fun l => List.range' (boff layers l) (bsize layers l)) := by
      apply List.map_congr_left
      intro l hl
      have hl' := List.mem_range.mp hl
      rw [← List.map_take, List.take_range, Nat.min_eq_left (by omega),
        getD_map_range _ hl']
      rfl
    rw [h2] at h1
    exact h1
  rw [hJ, hK, hW, hBB, ← List.map_append]
  have hg := range'_glue (woff layers (layers.length - 1)) 0
    (((List.range (layers.length - 1)).map (bsize layers)).sum)
  rw [Nat.zero_add] at hg
  rw [hg, ← P_split, ← List.range_eq_range']

/-! ### The Hessian-vector product on canonical parameters -/

theorem get_Hv_op_canonical (layers : List Nat) (hL : 2 ≤ layers.length) (cost : Expr)
    (v : Tensor Expr) (hv : v.shape = [P layers]) :
    get_Hv_op layers cost (canonicalParams layers) v =
      .ok ⟨[P layers], (List.range (P layers)).map (fun i =>
        (sumE (List.zipWith .mul ((List.range (P layers)).map (fun k => cost.grad k))
          (v.data.map .stopGrad))).grad i)⟩ := by
  have hmul : tfMultiply ⟨[P layers], (List.range (P layers)).map (fun k => cost.grad k)⟩
      (tfStopGradient v) =
      .ok ⟨[P layers], List.zipWith .mul ((List.range (P layers)).map (fun k => cost.grad k))
        (v.data.map .stopGrad)⟩ := by
    rw [tfMultiply, if_pos]
    · rfl
    · rw [tfStopGradient, hv]
  simp only [get_Hv_op, except_bind_ok (flatten_grad_canonical layers hL cost),
    except_bind_ok hmul]
  exact flatten_grad_canonical layers hL _

/-! ### Evaluation and differentiation lemmas for the expression language -/

theorem eval_sumE (x : Nat → ℚ) (l : List Expr) :
    (sumE l).eval x = (l.map (Expr.eval x)).sum := by
  induction l with
  | nil => simp [sumE, Expr.eval]
  | cons e es ih => simp [sumE, Expr.eval] at ih ⊢; rw [ih]

theorem grad_sumE (i : Nat) (l : List Expr) :
    (sumE l).grad i = sumE (l.map (fun e => e.grad i)) := by
  induction l with
  | nil => simp [sumE, Expr.grad]
  | cons e es ih => simp [sumE, Expr.grad] at ih ⊢; rw [ih]

theorem smooth_grad (i : Nat) : ∀ (e : Expr), e.smooth = true → (e.grad i).smooth = true := by
  intro e
  induction e with
  | const c => intro _; rfl
  | var j => intro _; rfl
  | add a b iha ihb =>
    intro h
    rw [Expr.smooth, Bool.and_eq_true] at h
    rw [Expr.grad, Expr.smooth, iha h.1, ihb h.2]
    rfl
  | mul a b iha ihb =>
    intro h
    rw [Expr.smooth, Bool.and_eq_true] at h
    rw [Expr.grad]
    show ((Expr.mul (a.grad i) b).smooth && (Expr.mul a (b.grad i)).smooth) = true
    rw [Expr.smooth, Expr.smooth, iha h.1, ihb h.2, h.1, h.2]
    rfl
  | div a b iha ihb => intro h; cases h
  | stopGrad a iha => intro h; cases h

theorem eval_update_hasDerivAt (x : Nat → ℚ) (i : Nat) :
    ∀ (e : Expr), e.smooth = true →
    HasDerivAt (fun s => Expr.eval (Function.update x i s) e) (Expr.eval x (e.grad i)) (x i) := by
  intro e
  induction e with
  | const c =>
    intro _
    simp only [Expr.eval, Expr.grad]
    exact hasDerivAt_const (x i) c
  | var j =>
    intro _
    simp only [Expr.eval, Expr.grad]
    by_cases hj : j = i
    · subst hj
      simp only [Function.update_same, if_pos rfl]
      exact hasDerivAt_id (x j)
    · have : ∀ s, Function.update x i s j = x j := fun s =>
        Function.update_noteq hj s x
      simp only [this, if_neg hj]
      exact hasDerivAt_const (x i) (x j)
  | add a b iha ihb =>
    intro h
    rw [Expr.smooth, Bool.and_eq_true] at h
    simp only [Expr.eval, Expr.grad]
    exact (iha h.1).add (ihb h.2)
  | mul a b iha ihb =>
    intro h
    rw [Expr.smooth, Bool.and_eq_true] at h
    simp only [Expr.eval, Expr.grad]
    have hm := (iha h.1).mul (ihb h.2)
    simpa [Function.update_eq_self] using hm
  | div a b iha ihb => intro h; cases h
  | stopGrad a iha => intro h; cases h

theorem deriv_eval (x : Nat → ℚ) (i : Nat) (e : Expr) (he : e.smooth = true) :
    deriv (fun s => Expr.eval (Function.update x i s) e) (x i) = Expr.eval x (e.grad i) :=
  (eval_update_hasDerivAt x i e he).deriv

theorem second_deriv_eval (x : Nat → ℚ) (i j : Nat) (cost : Expr)
    (hc : cost.smooth = true) :
    deriv (fun s => deriv (fun u => Expr.eval (Function.update (Function.update x i s) j u) cost)
      (Function.update x i s j)) (x i) = Expr.eval x ((cost.grad j).grad i) := by
  have hfun : (fun s => deriv (fun u =>
      Expr.eval (Function.update (Function.update x i s) j u) cost)
        (Function.update x i s j)) =
      (fun s => Expr.eval (Function.update x i s) (cost.grad j)) := by
    funext s
    exact deriv_eval (Function.update x i s) j cost hc
  rw [hfun]
  exact deriv_eval x i (cost.grad j) (smooth_grad j cost hc)

theorem Hv_data_eval (x : Nat → ℚ) (cost : Expr) (vdat : List Expr) (n : Nat)
    (hvl : vdat.length = n) (i : Nat) :
    Expr.eval x ((sumE (List.zipWith .mul ((List.range n).map (fun k => cost.grad k))
      (vdat.map .stopGrad))).grad i) =
      ∑ j ∈ Finset.range n, Expr.eval x ((cost.grad j).grad i) *
        Expr.eval x (vdat.getD j (.const 0)) := by
  have hD : List.zipWith Expr.mul ((List.range n).map (fun k => cost.grad k))
      (vdat.map .stopGrad) = (List.range n).map (fun j =>
        Expr.mul (cost.grad j) (.stopGrad (vdat.getD j (.const 0)))) := by
    apply List.ext_getElem
    · simp [hvl]
    · intro k h1 h2
      have hk : k < n := by simpa using h2
      simp only [List.getElem_zipWith, List.getElem_map, List.getElem_range]
      rw [List.getD_eq_getElem _ _ (by omega)]
  rw [hD, grad_sumE, eval_sumE, List.map_map, List.map_map]
  have hmap : (List.range n).map ((Expr.eval x ∘ (fun e => e.grad i)) ∘ (fun j =>
      Expr.mul (cost.grad j) (.stopGrad (vdat.getD j (.const 0))))) =
      (List.range n).map (fun j => Expr.eval x ((cost.grad j).grad i) *
        Expr.eval x (vdat.getD j (.const 0))) := by
    apply List.map_congr_left
    intro j _
    simp only [Function.comp_apply, Expr.grad, Expr.eval, mul_zero, add_zero]
  rw [hmap, list_sum_range_eq]

/-! ### Claim C2 -/

/-- C2: for every direction tensor `v` of length `P` (its entries frozen by
`stop_gradient` so that no gradient flows back into `v`), `get_Hv_op`
succeeds on the canonically numbered parameters and its `i`-th entry
evaluates to `(H·v)_i` exactly, where `H` is the Hessian of the scalar
cost with respect to the flattened parameters — entry `H i j` being the
iterated analytic partial derivative `∂_i ∂_j` of the evaluated cost. -/
theorem get_Hv_op_hessian (layers : List Nat) (hL : 2 ≤ layers.length) (cost : Expr)
    (hc : cost.smooth = true) (v : Tensor Expr) (hv : v.shape = [P layers])
    (hvl : v.data.length = P layers) (x : Nat → ℚ) :
    ∃ t, get_Hv_op layers cost (canonicalParams layers) v = .ok t ∧
      t.shape = [P layers] ∧ t.data.length = P layers ∧
      ∀ i, i < P layers → Expr.eval x (t.data.getD i (.const 0)) =
        ∑ j ∈ Finset.range (P layers),
          (deriv (fun s => deriv (fun u => Expr.eval
            (Function.update (Function.update x i s) j u) cost)
            (Function.update x i s j)) (x i)) * Expr.eval x (v.data.getD j (.const 0)) := by
  refine ⟨_, get_Hv_op_canonical layers hL cost v hv, rfl, by simp, ?_⟩
  intro i hi
  rw [getD_map_range _ hi, Hv_data_eval x cost v.data (P layers) hvl i]
  apply Finset.sum_congr rfl
  intro j _
  rw [second_deriv_eval x i j cost hc]

/-- Witness for C2: `layers = [1,1]`, cost `w²`, direction `(1,1)`. -/
theorem get_Hv_op_hessian_witness :
    (2 ≤ ([1, 1] : List Nat).length) ∧
    (Expr.mul (.var 0) (.var 0)).smooth = true ∧
    (⟨[2], [.const 1, .const 1]⟩ : Tensor Expr).shape = [P [1, 1]] ∧
    (⟨[2], [.const 1, .const 1]⟩ : Tensor Expr).data.length = P [1, 1] ∧
    (∃ t, get_Hv_op [1, 1] (Expr.mul (.var 0) (.var 0)) (canonicalParams [1, 1])
        ⟨[2], [.const 1, .const 1]⟩ = .ok t ∧
      t.shape = [P [1, 1]] ∧ t.data.length = P [1, 1] ∧
      ∀ i, i < P [1, 1] → Expr.eval (fun _ => 0) (t.data.getD i (.const 0)) =
        ∑ j ∈ Finset.range (P [1, 1]),
          (deriv (fun s => deriv (fun u => Expr.eval
            (Function.update (Function.update (fun _ => (0 : ℚ)) i s) j u)
              (Expr.mul (.var 0) (.var 0)))
            (Function.update (fun _ => (0 : ℚ)) i s j)) ((fun _ => (0 : ℚ)) i)) *
          Expr.eval (fun _ => 0)
            ((⟨[2], [.const 1, .const 1]⟩ : Tensor Expr).data.getD j (.const 0))) :=
  ⟨by decide, by decide, by decide, by decide,
    get_Hv_op_hessian [1, 1] (by decide) (Expr.mul (.var 0) (.var 0)) (by decide)
      ⟨[2], [.const 1, .const 1]⟩ (by decide) (by decide) (fun _ => 0)⟩

/-! ### Claim C3: full-Hessian assembly -/

theorem headD_map_range {β : Type} (g : Nat → β) (n : Nat) (hn : 0 < n) (d : β) :
    (((List.range n).map g).headD d) = g 0 := by
  cases n with
  | zero => cases hn
  | succ m => rw [List.range_succ_eq_map]; rfl

theorem tfStack1_ok {α : Type} (ts : List (Tensor α)) (h0 : 0 < ts.length) (k : Nat)
    (hk : (ts.headD ⟨[], []⟩).data.length = k)
    (h1 : ∀ t ∈ ts, t.shape = [k] ∧ t.data.length = k) :
    tfStack1 ts = .ok ⟨[ts.length, k], (ts.map (fun t => t.data)).flatten⟩ := by
  rw [tfStack1, if_pos, hk]
  rw [hk]
  exact ⟨h0, h1⟩

theorem flatten_chunk_row {β : Type} (cs : List (List β)) (k i : Nat)
    (hlen : ∀ c ∈ cs, c.length = k) (hi : i < cs.length) :
    ((cs.flatten).drop (i * k)).take k = cs.getD i [] := by
  have hrep : cs.map List.length = List.replicate cs.length k := by
    have h2 : (cs.map List.length).length = cs.length := by simp
    rw [← h2]
    apply List.eq_replicate_of_mem
    intro b hb
    obtain ⟨c, hc, rfl⟩ := List.mem_map.mp hb
    exact hlen c hc
  have h1 := drop_take_flatten cs [] i hi
  rw [List.append_nil] at h1
  have hoff : ((cs.map List.length).take i).sum = i * k := by
    rw [hrep, List.take_replicate, Nat.min_eq_left (by omega)]
    simp [Nat.mul_comm]
  have hsz : (cs.map List.length).getD i 0 = k := by
    rw [hrep, List.getD_eq_getElem _ _ (by simpa using hi), List.getElem_replicate]
  rw [hoff, hsz] at h1
  exact h1

theorem eye_row (n r : Nat) (hr : r < n) :
    (((tfEye n).data.drop (r * n)).take n) = (stdBasis n r).data := by
  rw [tfEye, stdBasis]
  rw [drop_take_map_range _ n n r hr]
  apply List.map_congr_left
  intro j hj
  have hj' := List.mem_range.mp hj
  have hn : 0 < n := by omega
  have hdiv : (r * n + j) / n = r := by
    rw [Nat.mul_comm r n, Nat.mul_add_div hn, Nat.div_eq_of_lt hj']
    omega
  have hmod : (r * n + j) % n = j := by
    rw [Nat.mul_comm r n, Nat.mul_add_mod, Nat.mod_eq_of_lt hj']
  rw [hdiv, hmod]
  by_cases hrj : r = j
  · rw [if_pos hrj, if_pos hrj.symm]
  · rw [if_neg hrj, if_neg (Ne.symm hrj)]

/-- C3: for every index `i` in `0..P-1`, `get_H_op` succeeds, the
returned matrix is `P × P`, and its row `i` equals the result of
`get_Hv_op` applied to the `i`-th standard basis vector `e_i` of
length `P`. -/
theorem get_H_op_rows (layers : List Nat) (hL : 2 ≤ layers.length) (cost : Expr)
    (i : Nat) (hi : i < P layers) :
    ∃ H t, get_H_op layers cost (canonicalParams layers) = .ok H ∧
      H.shape = [P layers, P layers] ∧
      get_Hv_op layers cost (canonicalParams layers) (stdBasis (P layers) i) = .ok t ∧
      rowData H i = t.data ∧ t.data.length = P layers := by
  have hP0 : 0 < P layers := by omega
  have hrow : ∀ r, r < P layers →
      get_Hv_op layers cost (canonicalParams layers)
        ⟨[P layers], ((tfEye (P layers)).data.drop (r * P layers)).take (P layers)⟩ =
      .ok ⟨[P layers], (List.range (P layers)).map (fun i2 =>
        (sumE (List.zipWith .mul ((List.range (P layers)).map (fun k => cost.grad k))
          ((stdBasis (P layers) r).data.map .stopGrad))).grad i2)⟩ := by
    intro r hr
    rw [eye_row (P layers) r hr]
    show get_Hv_op layers cost (canonicalParams layers) (stdBasis (P layers) r) = _
    exact get_Hv_op_canonical layers hL cost (stdBasis (P layers) r) rfl
  have hseq : seqE ((List.range (P layers)).map (fun r =>
      get_Hv_op layers cost (canonicalParams layers)
        ⟨[P layers], ((tfEye (P layers)).data.drop (r * P layers)).take (P layers)⟩)) =
      .ok ((List.range (P layers)).map (fun r =>
        (⟨[P layers], (List.range (P layers)).map (fun i2 =>
          (sumE (List.zipWith .mul ((List.range (P layers)).map (fun k => cost.grad k))
            ((stdBasis (P layers) r).data.map .stopGrad))).grad i2)⟩ : Tensor Expr))) := by
    apply seqE_map_ok
    intro r hr
    exact hrow r (List.mem_range.mp hr)
  have hstack := tfStack1_ok ((List.range (P layers)).map (fun r =>
      (⟨[P layers], (List.range (P layers)).map (fun i2 =>
        (sumE (List.zipWith .mul ((List.range (P layers)).map (fun k => cost.grad k))
          ((stdBasis (P layers) r).data.map .stopGrad))).grad i2)⟩ : Tensor Expr)))
    (by simpa using hP0) (P layers)
    (by rw [headD_map_range _ _ hP0]; simp)
    (by intro t ht
        obtain ⟨r, hr, rfl⟩ := List.mem_map.mp ht
        exact ⟨rfl, by simp⟩)
  have heye : tfMapFnRows (get_Hv_op layers cost (canonicalParams layers)) (tfEye (P layers)) =
      (seqE ((List.range (P layers)).map (fun r =>
        get_Hv_op layers cost (canonicalParams layers)
          ⟨[P layers], ((tfEye (P layers)).data.drop (r * P layers)).take (P layers)⟩)))
        >>= tfStack1 := rfl
  have hchain : get_H_op layers cost (canonicalParams layers) =
      tfStack1 ((List.range (P layers)).map (fun r =>
        (⟨[P layers], (List.range (P layers)).map (fun i2 =>
          (sumE (List.zipWith .mul ((List.range (P layers)).map (fun k => cost.grad k))
            ((stdBasis (P layers) r).data.map .stopGrad))).grad i2)⟩ : Tensor Expr))) := by
    have hunfold : get_H_op layers cost (canonicalParams layers) =
        tfMapFnRows (get_Hv_op layers cost (canonicalParams layers))
          (tfEye (P layers)) := rfl
    rw [hunfold, heye, except_bind_ok hseq]
  have hH2 := hchain.trans hstack
  refine ⟨_, _, hH2, by simp, get_Hv_op_canonical layers hL cost (stdBasis (P layers) i) rfl,
    ?_, by simp⟩
  · rw [rowData]
    simp only [List.length_map, List.length_range, List.map_map]
    have hchunk := flatten_chunk_row (((List.range (P layers)).map (fun r =>
        (List.range (P layers)).map (fun i2 =>
          (sumE (List.zipWith .mul ((List.range (P layers)).map (fun k => cost.grad k))
            ((stdBasis (P layers) r).data.map .stopGrad))).grad i2))))
      (P layers) i (by
        intro c hc
        obtain ⟨r, hr, rfl⟩ := List.mem_map.mp hc
        simp) (by simpa using hi)
    rw [getD_map_range _ hi] at hchunk
    show ((((List.range (P layers)).map (fun r =>
        (List.range (P layers)).map (fun i2 =>
          (sumE (List.zipWith .mul ((List.range (P layers)).map (fun k => cost.grad k))
            ((stdBasis (P layers) r).data.map .stopGrad))).grad i2))).flatten).drop
              (i * P layers)).take (P layers) = _
    rw [hchunk]

/-- Witness for C3 at `layers = [1,1]`, cost `w²`, row 0. -/
theorem get_H_op_rows_witness :
    (2 ≤ ([1, 1] : List Nat).length) ∧ (0 < P [1, 1]) ∧
    (∃ H t, get_H_op [1, 1] (Expr.mul (.var 0) (.var 0)) (canonicalParams [1, 1]) = .ok H ∧
      H.shape = [P [1, 1], P [1, 1]] ∧
      get_Hv_op [1, 1] (Expr.mul (.var 0) (.var 0)) (canonicalParams [1, 1])
        (stdBasis (P [1, 1]) 0) = .ok t ∧
      rowData H 0 = t.data ∧ t.data.length = P [1, 1]) :=
  ⟨by decide, by decide,
    get_H_op_rows [1, 1] (by decide) (Expr.mul (.var 0) (.var 0)) 0 (by decide)⟩

/-! ### Claim C8: shape-error behaviour of `unflatten` and `get_Hv_op` -/

theorem winds_last (layers : List Nat) (h : layers ≠ []) :
    (np_cumsum (0 :: List.zipWith (· * ·) ((layers.rotate 1).dropLast)
      layers.dropLast)).getD
      ((np_cumsum (0 :: List.zipWith (· * ·) ((layers.rotate 1).dropLast)
        layers.dropLast)).length - 1) 0 = woff layers (layers.length - 1) := by
  rw [winds_length layers h, winds_getD layers h _ le_rfl]

theorem tfReshape_cases {α : Type} (t : Tensor α) (s : List Nat) :
    tfReshape t s = .ok ⟨s, t.data⟩ ∨ tfReshape t s = .error .shapeError := by
  by_cases h : t.data.length = s.prod
  · exact .inl (by rw [tfReshape, if_pos h])
  · exact .inr (by rw [tfReshape, if_neg h])

theorem seqE_shape_cases {α : Type} (l : List (Except TFError α))
    (h : ∀ x ∈ l, (∃ a, x = .ok a) ∨ x = .error .shapeError) :
    (∃ r, seqE l = .ok r) ∨ seqE l = .error .shapeError := by
  induction l with
  | nil => exact .inl ⟨[], rfl⟩
  | cons y ys ih =>
    rcases h y (by simp) with ⟨a, rfl⟩ | rfl
    · rcases ih (fun x hx => h x (by simp [hx])) with ⟨r, hr⟩ | hr
      · exact .inl ⟨a :: r, by simp [seqE, hr]⟩
      · exact .inr (by simp [seqE, hr])
    · exact .inr rfl

theorem except_cases_bind {α β : Type} {x : Except TFError α} {f : α → Except TFError β}
    (hx : (∃ a, x = .ok a) ∨ x = .error .shapeError)
    (hf : ∀ a, (∃ b, f a = .ok b) ∨ f a = .error .shapeError) :
    (∃ b, x >>= f = .ok b) ∨ x >>= f = .error .shapeError := by
  rcases hx with ⟨a, rfl⟩ | rfl
  · rcases hf a with ⟨b, hb⟩ | hb
    · exact .inl ⟨b, by rw [except_ok_bind, hb]⟩
    · exact .inr (by rw [except_ok_bind, hb])
  · exact .inr rfl

theorem unflatten_cases {α : Type} (layers : List Nat) (t : Tensor α) :
    (∃ r, unflatten layers t = .ok r) ∨ unflatten layers t = .error .shapeError := by
  simp only [unflatten]
  apply except_cases_bind
  · apply seqE_shape_cases
    intro x hx
    obtain ⟨l, _, rfl⟩ := List.mem_map.mp hx
    exact (tfReshape_cases _ _).imp (fun h => ⟨_, h⟩) id
  · intro weights
    apply except_cases_bind
    · apply seqE_shape_cases
      intro x hx
      obtain ⟨l, _, rfl⟩ := List.mem_map.mp hx
      exact (tfReshape_cases _ _).imp (fun h => ⟨_, h⟩) id
    · intro biases
      exact .inl ⟨_, rfl⟩

theorem unflatten_not_ok_of_lt {α : Type} (layers : List Nat) (hL : 2 ≤ layers.length)
    (t : Tensor α) (hlt : t.data.length < P layers) (r : List (Tensor α)) :
    unflatten layers t ≠ .ok r := by
  intro hok
  have hne : layers ≠ [] := by
    intro hh
    rw [hh] at hL
    simp at hL
  simp only [unflatten] at hok
  obtain ⟨weights, hW, hok2⟩ := except_bind_ok_inv hok
  obtain ⟨biases, hB, _⟩ := except_bind_ok_inv hok2
  have hWall := seqE_ok_mem hW
  have hBall := seqE_ok_mem hB
  have hsum : (((List.range (layers.length - 1)).map (wsize layers)) ++
      ((List.range (layers.length - 1)).map (bsize layers))).sum = P layers := by
    rw [List.sum_append, P_split]
    rfl
  obtain ⟨l, hl, hlow, hhigh⟩ := exists_segment _ t.data.length (by rw [hsum]; exact hlt)
  rw [List.length_append, List.length_map, List.length_range, List.length_map,
    List.length_range] at hl
  have htakeW : ∀ m, m ≤ layers.length - 1 →
      (((((List.range (layers.length - 1)).map (wsize layers)) ++
        ((List.range (layers.length - 1)).map (bsize layers))).take m).sum) =
        woff layers m := by
    intro m hm
    rw [List.take_append_eq_append_take]
    have h1 : m - ((List.range (layers.length - 1)).map (wsize layers)).length = 0 := by
      simp
      omega
    rw [h1, List.take_zero, List.append_nil, ← List.map_take, List.take_range,
      Nat.min_eq_left hm]
    rfl
  have htakeB : ∀ m, layers.length - 1 ≤ m → m ≤ 2 * (layers.length - 1) →
      (((((List.range (layers.length - 1)).map (wsize layers)) ++
        ((List.range (layers.length - 1)).map (bsize layers))).take m).sum) =
        boff layers (m - (layers.length - 1)) := by
    intro m hm1 hm2
    rw [List.take_append_eq_append_take, List.sum_append]
    have h1 : ((List.range (layers.length - 1)).map (wsize layers)).take m =
        (List.range (layers.length - 1)).map (wsize layers) :=
      List.take_of_length_le (by simp; omega)
    have h2 : m - ((List.range (layers.length - 1)).map (wsize layers)).length =
        m - (layers.length - 1) := by simp
    rw [h1, h2, ← List.map_take, List.take_range, Nat.min_eq_left (by omega)]
    rfl
  by_cases hcase : l < layers.length - 1
  · rw [htakeW l (by omega)] at hlow
    rw [htakeW (l + 1) (by omega)] at hhigh
    have hmem : tfReshape (tfSlice1 t
        ((np_cumsum (0 :: List.zipWith (· * ·) ((layers.rotate 1).dropLast)
          layers.dropLast)).getD l 0)
        ((np_cumsum (0 :: List.zipWith (· * ·) ((layers.rotate 1).dropLast)
          layers.dropLast)).getD (l + 1) 0))
        [layers.getD l 0, layers.getD (l + 1) 0] ∈
        (List.range (layers.length - 1)).map (fun l2 =>
          tfReshape (tfSlice1 t
            ((np_cumsum (0 :: List.zipWith (· * ·) ((layers.rotate 1).dropLast)
              layers.dropLast)).getD l2 0)
            ((np_cumsum (0 :: List.zipWith (· * ·) ((layers.rotate 1).dropLast)
              layers.dropLast)).getD (l2 + 1) 0))
          [layers.getD l2 0, layers.getD (l2 + 1) 0]) :=
      List.mem_map_of_mem _ (List.mem_range.mpr hcase)
    obtain ⟨a, ha⟩ := hWall _ hmem
    rw [winds_getD layers hne l (by omega), winds_getD layers hne (l + 1) (by omega),
      tfSlice1, tfReshape, if_neg] at ha
    · cases ha
    · intro hcontra
      rw [List.length_take, List.length_drop, List.prod_cons, List.prod_singleton,
        ← wsize] at hcontra
      have h3 := woff_succ layers l
      omega
  · have hge : layers.length - 1 ≤ l := by omega
    rw [htakeB l hge (by omega)] at hlow
    rw [htakeB (l + 1) (by omega) (by omega)] at hhigh
    have hidx1 : l + 1 - (layers.length - 1) = (l - (layers.length - 1)) + 1 := by omega
    rw [hidx1] at hhigh
    have hlb : l - (layers.length - 1) < layers.length - 1 := by omega
    have hmem : tfReshape (tfSlice1 t
        (((woff layers (layers.length - 1)) :: (np_cumsum (layers.drop 1)).map
          (fun c => woff layers (layers.length - 1) + c)).getD (l - (layers.length - 1)) 0)
        (((woff layers (layers.length - 1)) :: (np_cumsum (layers.drop 1)).map
          (fun c => woff layers (layers.length - 1) + c)).getD
            ((l - (layers.length - 1)) + 1) 0))
        [layers.getD ((l - (layers.length - 1)) + 1) 0] ∈
        (List.range (layers.length - 1)).map (fun l2 =>
          tfReshape (tfSlice1 t
            (((woff layers (layers.length - 1)) :: (np_cumsum (layers.drop 1)).map
              (fun c => woff layers (layers.length - 1) + c)).getD l2 0)
            (((woff layers (layers.length - 1)) :: (np_cumsum (layers.drop 1)).map
              (fun c => woff layers (layers.length - 1) + c)).getD (l2 + 1) 0))
          [layers.getD (l2 + 1) 0]) :=
      List.mem_map_of_mem _ (List.mem_range.mpr hlb)
    rw [winds_last layers hne] at hBall
    obtain ⟨a, ha⟩ := hBall _ hmem
    rw [binds_getD layers _ (by omega), binds_getD layers _ (by omega),
      tfSlice1, tfReshape, if_neg] at ha
    · cases ha
    · intro hcontra
      rw [List.length_take, List.length_drop, List.prod_singleton, ← bsize] at hcontra
      have h3 := boff_succ layers (l - (layers.length - 1))
      omega

theorem get_Hv_op_canonical_char (layers : List Nat) (hL : 2 ≤ layers.length)
    (cost : Expr) (v : Tensor Expr) (n : Nat) (hv : v.shape = [n])
    (hvl : v.data.length = n) :
    ((n = P layers ∨ n = 1 ∨ P layers = 1) →
      ∃ r, get_Hv_op layers cost (canonicalParams layers) v = .ok r) ∧
    (¬(n = P layers ∨ n = 1 ∨ P layers = 1) →
      get_Hv_op layers cost (canonicalParams layers) v = .error .shapeError) := by
  simp only [get_Hv_op, except_bind_ok (flatten_grad_canonical layers hL cost)]
  constructor
  · intro hcase
    have hmul : ∃ w, tfMultiply
        ⟨[P layers], (List.range (P layers)).map (fun k => cost.grad k)⟩
        (tfStopGradient v) = .ok w := by
      by_cases hsh : ([P layers] : List Nat) = (tfStopGradient v).shape
      · exact ⟨_, by rw [tfMultiply, if_pos hsh]⟩
      · have hnP : n ≠ P layers := by
          intro hnp
          apply hsh
          rw [tfStopGradient, hv, hnp]
        rcases hcase with hnp | h1 | hP1
        · exact absurd hnp hnP
        · subst h1
          obtain ⟨x, hx⟩ := List.length_eq_one.mp hvl
          rw [tfMultiply, if_neg hsh, tfStopGradient, hv, hx]
          exact ⟨_, rfl⟩
        · have hGdat : (List.range (P layers)).map (fun k => cost.grad k) =
              [cost.grad 0] := by
            rw [hP1]
            rfl
          rw [tfMultiply, if_neg hsh, tfStopGradient, hv, hGdat, hP1]
          rcases n with _ | n2
          · exact ⟨_, rfl⟩
          · rcases n2 with _ | m
            · obtain ⟨x, hx⟩ := List.length_eq_one.mp hvl
              rw [hx]
              exact ⟨_, rfl⟩
            · exact ⟨_, rfl⟩
    obtain ⟨w, hw⟩ := hmul
    rw [except_bind_ok hw]
    exact ⟨_, flatten_grad_canonical layers hL _⟩
  · intro hcase
    push_neg at hcase
    obtain ⟨hnP, hn1, hP1⟩ := hcase
    have hsh : ([P layers] : List Nat) ≠ (tfStopGradient v).shape := by
      rw [tfStopGradient, hv]
      intro hh
      exact hnP (by injection hh with h1 _; exact h1.symm)
    have hmul : tfMultiply
        ⟨[P layers], (List.range (P layers)).map (fun k => cost.grad k)⟩
        (tfStopGradient v) = .error .shapeError := by
      rw [tfMultiply, if_neg hsh, tfStopGradient, hv]
      rcases n with _ | n2
      · rcases hP : P layers with _ | q
        · rfl
        · rcases q with _ | q2
          · exact absurd hP hP1
          · rfl
      · rcases n2 with _ | m
        · exact absurd rfl hn1
        · rcases hP : P layers with _ | q
          · rfl
          · rcases q with _ | q2
            · exact absurd hP hP1
            · rfl
    rw [except_bind_err hmul]

/-- C8 counterexample: with `layers = [1,1]` (so `P = 2`), `unflatten`
on a vector of length 3 ≠ P does NOT fail — it succeeds, silently
ignoring the trailing element. -/
theorem unflatten_long_input_no_error :
    (P [1, 1] = 2) ∧
    unflatten [1, 1] (⟨[3], [(1 : ℚ), 2, 3]⟩ : Tensor ℚ) =
      .ok [⟨[1, 1], [1]⟩, ⟨[1], [2]⟩] := by
  constructor
  · decide
  · rfl

/-- C8 (amended): `unflatten` fails — with a ShapeError — exactly for
input vectors of length `< P` (longer inputs succeed, ignoring the
tail), and `get_Hv_op` on a 1-D direction `v` of length `n` fails —
with a ShapeError — exactly when `n` is incompatible with elementwise
or scalar broadcasting against the length-`P` gradient, i.e. unless
`n = P`, `n = 1`, or `P = 1`. -/
theorem shape_error_characterization (layers : List Nat) (hL : 2 ≤ layers.length) :
    (∀ (t : Tensor ℚ),
      ((∃ r, unflatten layers t = .ok r) ↔ P layers ≤ t.data.length) ∧
      (t.data.length < P layers → unflatten layers t = .error .shapeError)) ∧
    (∀ (cost : Expr) (v : Tensor Expr) (n : Nat), v.shape = [n] → v.data.length = n →
      ((∃ r, get_Hv_op layers cost (canonicalParams layers) v = .ok r) ↔
        (n = P layers ∨ n = 1 ∨ P layers = 1)) ∧
      (¬(n = P layers ∨ n = 1 ∨ P layers = 1) →
        get_Hv_op layers cost (canonicalParams layers) v = .error .shapeError)) := by
  constructor
  · intro t
    constructor
    · constructor
      · rintro ⟨r, hr⟩
        by_contra hlt
        exact unflatten_not_ok_of_lt layers hL t (by omega) r hr
      · intro hge
        exact ⟨_, unflatten_ok layers hL t hge⟩
    · intro hlt
      rcases unflatten_cases layers t with ⟨r, hr⟩ | herr
      · exact absurd hr (unflatten_not_ok_of_lt layers hL t hlt r)
      · exact herr
  · intro cost v n hv hvl
    obtain ⟨hpos, hneg⟩ := get_Hv_op_canonical_char layers hL cost v n hv hvl
    refine ⟨⟨?_, hpos⟩, hneg⟩
    rintro ⟨r, hr⟩
    by_contra hnot
    rw [hneg hnot] at hr
    cases hr

/-- Witness for the amended C8 at `layers = [1,1]`. -/
theorem shape_error_characterization_witness :
    (2 ≤ ([1, 1] : List Nat).length) ∧
    ((∀ (t : Tensor ℚ),
      ((∃ r, unflatten [1, 1] t = .ok r) ↔ P [1, 1] ≤ t.data.length) ∧
      (t.data.length < P [1, 1] → unflatten [1, 1] t = .error .shapeError)) ∧
    (∀ (cost : Expr) (v : Tensor Expr) (n : Nat), v.shape = [n] → v.data.length = n →
      ((∃ r, get_Hv_op [1, 1] cost (canonicalParams [1, 1]) v = .ok r) ↔
        (n = P [1, 1] ∨ n = 1 ∨ P [1, 1] = 1)) ∧
      (¬(n = P [1, 1] ∨ n = 1 ∨ P [1, 1] = 1) →
        get_Hv_op [1, 1] cost (canonicalParams [1, 1]) v = .error .shapeError))) :=
  ⟨by decide, shape_error_characterization [1, 1] (by decide)⟩

/-! ### Machinery for `get_G_op` -/

theorem zip3With_length {α β γ δ : Type} (f : α → β → γ → δ) :
    ∀ (as2 : List α) (bs : List β) (cs : List γ),
      (zip3With f as2 bs cs).length = min as2.length (min bs.length cs.length) := by
  intro as2
  induction as2 with
  | nil => intro bs cs; cases bs <;> cases cs <;> simp [zip3With]
  | cons a as2 ih =>
    intro bs cs
    cases bs with
    | nil => simp [zip3With]
    | cons b bs =>
      cases cs with
      | nil => simp [zip3With]
      | cons c cs => simp [zip3With, ih]; omega

theorem exParams_ok (layers : List Nat) (params : List (Tensor Nat)) (b : Nat)
    (hp : layers.length ≤ params.length) :
    exParams layers params b = .ok ((List.range b).map (fun _ =>
      (List.range layers.length).map (fun l => tfIdentity (params.getD l ⟨[], []⟩)))) := by
  rw [exParams]
  apply seqE_map_ok
  intro ex _
  apply seqE_map_ok
  intro l hl
  have hl' := List.mem_range.mp hl
  rw [except_bind_ok (pyIdx_ok params (by omega) ⟨[], []⟩)]

theorem tfSplit_ok {α : Type} (t : Tensor α) (num n : Nat) (rest : List Nat)
    (ht : t.shape = n :: rest) (hnum : num ≠ 0) (hmod : n % num = 0) :
    tfSplit t num = .ok ((List.range num).map (fun i =>
      ⟨(n / num) :: rest,
       (t.data.drop (i * (n / num * rest.prod))).take (n / num * rest.prod)⟩)) := by
  simp only [tfSplit, ht]
  rw [if_pos ⟨hnum, hmod⟩]

theorem tfSplit_err {α : Type} (t : Tensor α) (num n : Nat) (rest : List Nat)
    (ht : t.shape = n :: rest) (h : ¬(num ≠ 0 ∧ n % num = 0)) :
    tfSplit t num = .error .batchShapeError := by
  simp only [tfSplit, ht]
  rw [if_neg h]

/-- The per-example parameter copies when `len(layers) = 2` are the whole
conforming two-tensor list, so they conform as well. -/
theorem conforms_copies (layers : List Nat) (params : List (Tensor Nat))
    (hL2 : layers.length = 2) (hc : Conforms layers params) :
    Conforms layers ((List.range layers.length).map
      (fun l => tfIdentity (params.getD l ⟨[], []⟩))) := by
  obtain ⟨h1, h2, h3⟩ := hc
  refine ⟨by simp [hL2], ?_, ?_⟩
  · intro l hl
    have hl0 : l = 0 := by omega
    subst hl0
    rw [getD_map_range _ (by omega)]
    exact ⟨(h2 0 (by omega)).1, (h2 0 (by omega)).2⟩
  · intro l hl
    have hl0 : l = 0 := by omega
    subst hl0
    rw [getD_map_range _ (by omega)]
    exact ⟨(h3 0 (by omega)).1, (h3 0 (by omega)).2⟩

/-- Proof-layer abbreviation: the flat data of one per-example gradient
row, `flatten(tf.gradients(c, ps))`, as produced by `flatten` on a
conforming `ps`. -/
def gradRowData (layers : List Nat) (ps : List (Tensor Nat)) (c : Expr) : List Expr :=
  ((List.range (layers.length - 1)).map
    (fun l => ((tfGradients c ps).getD l ⟨[], []⟩).data)).flatten ++
  ((List.range (layers.length - 1)).map
    (fun l => ((tfGradients c ps).getD (l + (layers.length - 1)) ⟨[], []⟩).data)).flatten

theorem flatten_grad_conforming (layers : List Nat) (ps : List (Tensor Nat))
    (hL : 2 ≤ layers.length) (hc : Conforms layers ps) (c : Expr) :
    flatten layers (tfGradients c ps) = .ok ⟨[P layers], gradRowData layers ps c⟩ :=
  flatten_conforming layers _ hL (conforms_tfGradients layers c ps hc)

theorem gradRowData_length (layers : List Nat) (ps : List (Tensor Nat))
    (hc : Conforms layers ps) (c : Expr) :
    (gradRowData layers ps c).length = P layers := by
  rw [gradRowData, List.length_append,
    wdata_flatten_length layers _ (conforms_tfGradients layers c ps hc),
    bdata_flatten_length layers _ (conforms_tfGradients layers c ps hc), ← P_split]

/-- With three or more layer widths, `flatten` indexes the bias position
`1 + (len(layers) - 1)` of a parameter list that has only `len(layers)`
entries: an index error. -/
theorem flatten_short_index_error {α : Type} (layers : List Nat) (ps : List (Tensor α))
    (hlen : ps.length = layers.length) (hL3 : 3 ≤ layers.length)
    (hw : ∀ l, l < layers.length - 1 →
      (ps.getD l ⟨[], []⟩).data.length = wsize layers l) :
    flatten layers ps = .error .indexError := by
  have h1 : seqE ((List.range (layers.length - 1)).map (fun l =>
      pyIdx ps l >>= fun t => tfReshape t [layers.getD l 0 * layers.getD (l + 1) 0])) =
      .ok ((List.range (layers.length - 1)).map (fun l =>
        (⟨[layers.getD l 0 * layers.getD (l + 1) 0], (ps.getD l ⟨[], []⟩).data⟩ : Tensor α))) := by
    apply seqE_map_ok
    intro l hl
    have hl' : l < layers.length - 1 := List.mem_range.mp hl
    rw [except_bind_ok (pyIdx_ok ps (by omega) ⟨[], []⟩)]
    have hdl := hw l hl'
    rw [wsize] at hdl
    rw [tfReshape, List.prod_singleton, if_pos hdl]
  have hcw : ∀ t ∈ (List.range (layers.length - 1)).map (fun l =>
      (⟨[layers.getD l 0 * layers.getD (l + 1) 0], (ps.getD l ⟨[], []⟩).data⟩ : Tensor α)),
      t.shape = [t.data.length] := by
    intro t ht
    obtain ⟨l, hl, rfl⟩ := List.mem_map.mp ht
    have hl' := List.mem_range.mp hl
    have hdl := hw l hl'
    rw [wsize] at hdl
    show ([layers.getD l 0 * layers.getD (l + 1) 0] : List Nat) =
      [(ps.getD l ⟨[], []⟩).data.length]
    rw [hdl]
  have h2 := tfConcat1_ok ((List.range (layers.length - 1)).map (fun l =>
      (⟨[layers.getD l 0 * layers.getD (l + 1) 0], (ps.getD l ⟨[], []⟩).data⟩ : Tensor α)))
    (by simp; omega) hcw
  have h3 : seqE ((List.range (layers.length - 1)).map (fun l =>
      pyIdx ps (l + (layers.length - 1)))) = .error .indexError := by
    refine seqE_map_error (show 1 < layers.length - 1 by omega) ?_ ?_
    · intro k hk
      have hk0 : k = 0 := by omega
      subst hk0
      exact ⟨_, pyIdx_ok ps (by omega) ⟨[], []⟩⟩
    · exact pyIdx_err ps (by omega)
  simp only [flatten, except_bind_ok h1, except_bind_ok h2, except_bind_err h3]

theorem grid_div (i j w : Nat) (hj : j < w) : (i * w + j) / w = i := by
  have hw : 0 < w := by omega
  rw [Nat.mul_comm i w, Nat.mul_add_div hw, Nat.div_eq_of_lt hj]
  omega

theorem grid_mod (i j w : Nat) (hj : j < w) : (i * w + j) % w = j := by
  rw [Nat.mul_comm i w, Nat.mul_add_mod, Nat.mod_eq_of_lt hj]

theorem tfTranspose_mk (m n : Nat) (d : List Expr) :
    tfTranspose ⟨[m, n], d⟩ = .ok ⟨[n, m], (List.range (n * m)).map (fun idx =>
      d.getD (idx % m * n + idx / m) (.const 0))⟩ := rfl

theorem tfMatmul_mk (m k n : Nat) (da db : List Expr) :
    tfMatmul ⟨[m, k], da⟩ ⟨[k, n], db⟩ = .ok ⟨[m, n],
      (List.range (m * n)).map (fun idx => sumE ((List.range k).map (fun s =>
        .mul (da.getD (idx / n * k + s) (.const 0))
             (db.getD (s * n + idx % n) (.const 0)))))⟩ := by
  simp only [tfMatmul]
  rw [if_pos trivial]

theorem rows_error_generic (layers : List Nat) (params : List (Tensor Nat))
    (hc : Conforms layers params) (hL3 : 3 ≤ layers.length) (b : Nat) (hb : b ≠ 0)
    (costs : List Expr) (psl : List (List (Tensor Nat)))
    (hpsl0 : psl.getD 0 [] = (List.range layers.length).map
      (fun l => tfIdentity (params.getD l ⟨[], []⟩)))
    (hclen : 0 < costs.length) (hplen : 0 < psl.length) :
    seqE ((List.range b).map (fun ex => pyIdx costs ex >>= fun c =>
      pyIdx psl ex >>= fun ps => flatten layers (tfGradients c ps))) =
      .error .indexError := by
  refine seqE_map_error (show 0 < b by omega) (fun k hk => absurd hk (by omega)) ?_
  rw [except_bind_ok (pyIdx_ok costs hclen (.const 0)),
    except_bind_ok (pyIdx_ok psl hplen []), hpsl0]
  apply flatten_short_index_error
  · simp [tfGradients]
  · exact hL3
  · intro l hl
    have hb1 : l < ((List.range layers.length).map
        (fun l => tfIdentity (params.getD l ⟨[], []⟩))).length := by
      simp
      omega
    rw [tfGradients, getD_map_of_lt _ _ hb1 ⟨[], []⟩]
    simp only [List.length_map]
    rw [getD_map_range _ (show l < layers.length by omega)]
    exact (hc.2.1 l hl).2

theorem rows_ok_generic (layers : List Nat) (params : List (Tensor Nat))
    (hL2 : layers.length = 2) (hc : Conforms layers params) (b : Nat)
    (costs : List Expr) (psl : List (List (Tensor Nat)))
    (hpsl : ∀ ex, ex < b → psl.getD ex [] = (List.range layers.length).map
      (fun l => tfIdentity (params.getD l ⟨[], []⟩)))
    (hclen : b ≤ costs.length) (hplen : b ≤ psl.length) :
    seqE ((List.range b).map (fun ex => pyIdx costs ex >>= fun c =>
      pyIdx psl ex >>= fun ps => flatten layers (tfGradients c ps))) =
      .ok ((List.range b).map (fun ex => (⟨[P layers],
        gradRowData layers ((List.range layers.length).map
          (fun l => tfIdentity (params.getD l ⟨[], []⟩)))
          (costs.getD ex (.const 0))⟩ : Tensor Expr))) := by
  apply seqE_map_ok
  intro ex hex
  have hex' := List.mem_range.mp hex
  rw [except_bind_ok (pyIdx_ok costs (by omega) (.const 0)),
    except_bind_ok (pyIdx_ok psl (by omega) []), hpsl ex hex']
  exact flatten_grad_conforming layers _ (by omega)
    (conforms_copies layers params hL2 hc) _

theorem stack_matmul_div_entries (b : Nat) (hb : b ≠ 0) (Pn : Nat)
    (rows : Nat → List Expr) (hrl : ∀ t, (rows t).length = Pn) :
    ∃ G, ((tfStack1 ((List.range b).map (fun ex => (⟨[Pn], rows ex⟩ : Tensor Expr)))) >>=
      fun ex_grads => tfTranspose ex_grads >>= fun tr => tfMatmul tr ex_grads >>=
        fun m => .ok (tfDivScalar m (b : ℚ))) = .ok G ∧
      G.shape = [Pn, Pn] ∧
      ∃ A : Nat → Nat → Expr, ∀ i j, i < Pn → j < Pn →
        G.data.getD (i * Pn + j) (.const 0) =
          .div (sumE ((List.range b).map (fun t => .mul (A t i) (A t j))))
            (.const (b : ℚ)) := by
  have hb0 : 0 < b := by omega
  have hstack0 := tfStack1_ok ((List.range b).map (fun ex => (⟨[Pn], rows ex⟩ : Tensor Expr)))
    (by simpa using hb0) Pn
    (by rw [headD_map_range _ b hb0]; exact hrl 0)
    (by
      intro t ht
      obtain ⟨ex, hex, rfl⟩ := List.mem_map.mp ht
      exact ⟨rfl, hrl ex⟩)
  have hdata : ((List.range b).map (fun ex => (⟨[Pn], rows ex⟩ : Tensor Expr))).map
      (fun t => t.data) = (List.range b).map rows := by
    rw [List.map_map]
    rfl
  rw [hdata] at hstack0
  simp only [List.length_map, List.length_range] at hstack0
  have htrans := tfTranspose_mk b Pn (((List.range b).map rows).flatten)
  have hmatmul := tfMatmul_mk Pn b Pn
    ((List.range (Pn * b)).map (fun idx =>
      (((List.range b).map rows).flatten).getD (idx % b * Pn + idx / b) (.const 0)))
    (((List.range b).map rows).flatten)
  rw [except_bind_ok hstack0, except_bind_ok htrans, except_bind_ok hmatmul]
  refine ⟨_, rfl, rfl, ?_⟩
  refine ⟨fun t i2 => (((List.range b).map rows).flatten).getD (t * Pn + i2)
    (.const 0), ?_⟩
  intro i j hi hj
  have hbij : i * Pn + j < Pn * Pn := by
    have h2 := Nat.mul_le_mul_right Pn hi
    rw [Nat.succ_mul] at h2
    omega
  set F := ((List.range b).map rows).flatten with hF
  set MD := (List.range (Pn * Pn)).map (fun idx => sumE ((List.range b).map (fun s =>
      Expr.mul ((((List.range (Pn * b)).map (fun idx2 =>
        F.getD (idx2 % b * Pn + idx2 / b) (.const 0))).getD
          (idx / Pn * b + s) (.const 0)))
        (F.getD (s * Pn + idx % Pn) (.const 0))))) with hMD
  simp only [tfDivScalar]
  rw [getD_map_of_lt (fun e => Expr.div e (.const (b : ℚ))) MD
    (show i * Pn + j < MD.length by rw [hMD]; simpa using hbij) (.const 0) (.const 0)]
  rw [hMD, getD_map_range _ hbij, grid_div i j Pn hj, grid_mod i j Pn hj]
  have hterm : (List.range b).map (fun s =>
      Expr.mul ((((List.range (Pn * b)).map (fun idx2 =>
        F.getD (idx2 % b * Pn + idx2 / b) (.const 0))).getD (i * b + s) (.const 0)))
        (F.getD (s * Pn + j) (.const 0))) =
      (List.range b).map (fun s =>
        Expr.mul (F.getD (s * Pn + i) (.const 0)) (F.getD (s * Pn + j) (.const 0))) := by
    apply List.map_congr_left
    intro s hs
    have hs' := List.mem_range.mp hs
    have hib : i * b + s < Pn * b := by
      have h2 := Nat.mul_le_mul_right b hi
      rw [Nat.succ_mul] at h2
      omega
    rw [getD_map_range _ hib, grid_mod i s b hs', grid_div i s b hs']
  rw [hterm]

theorem get_G_op_ok_build (layers : List Nat) (params : List (Tensor Nat))
    (X y : Tensor ℚ) (b : Nat)
    (mf : Tensor ℚ → List (Tensor Nat) → Tensor Expr)
    (cf : Tensor ℚ → Tensor Expr → List (Tensor Nat) → Expr)
    (hL2 : layers.length = 2) (hc : Conforms layers params) (hb : b ≠ 0)
    (nX : Nat) (rX : List Nat) (nY : Nat) (rY : List Nat)
    (hX : X.shape = nX :: rX) (hY : y.shape = nY :: rY)
    (hdx : nX % b = 0) (hdy : nY % b = 0) :
    ∃ G, get_G_op layers params X y b mf cf = .ok G ∧
      G.shape = [P layers, P layers] ∧
      ∃ A : Nat → Nat → Expr,
        ∀ i j, i < P layers → j < P layers →
          G.data.getD (i * P layers + j) (.const 0) =
            .div (sumE ((List.range b).map (fun t =>
              .mul (A t i) (A t j)))) (.const (b : ℚ)) := by
  have hp : layers.length ≤ params.length := by
    have := hc.1
    omega
  have h1 := exParams_ok layers params b hp
  have h2 := tfSplit_ok X b nX rX hX hb hdx
  have h3 := tfSplit_ok y b nY rY hY hb hdy
  have hrows := rows_ok_generic layers params hL2 hc b
    (zip3With cf
      ((List.range b).map (fun i => (⟨(nY / b) :: rY,
        (y.data.drop (i * (nY / b * rY.prod))).take (nY / b * rY.prod)⟩ : Tensor ℚ)))
      (List.zipWith mf
        ((List.range b).map (fun i => (⟨(nX / b) :: rX,
          (X.data.drop (i * (nX / b * rX.prod))).take (nX / b * rX.prod)⟩ : Tensor ℚ)))
        ((List.range b).map (fun _ => (List.range layers.length).map
          (fun l => tfIdentity (params.getD l ⟨[], []⟩)))))
      ((List.range b).map (fun _ => (List.range layers.length).map
        (fun l => tfIdentity (params.getD l ⟨[], []⟩)))))
    ((List.range b).map (fun _ => (List.range layers.length).map
      (fun l => tfIdentity (params.getD l ⟨[], []⟩))))
    (fun ex hex => getD_map_range _ hex [])
    (by rw [zip3With_length]; simp)
    (by simp)
  simp only [get_G_op, except_bind_ok h1, except_bind_ok h2, except_bind_ok h3,
    except_bind_ok hrows]
  exact stack_matmul_div_entries b hb (P layers) _
    (fun t => gradRowData_length layers _ (conforms_copies layers params hL2 hc) _)

theorem get_G_op_index_error (layers : List Nat) (params : List (Tensor Nat))
    (X y : Tensor ℚ) (b : Nat)
    (mf : Tensor ℚ → List (Tensor Nat) → Tensor Expr)
    (cf : Tensor ℚ → Tensor Expr → List (Tensor Nat) → Expr)
    (hL3 : 3 ≤ layers.length) (hc : Conforms layers params) (hb : b ≠ 0)
    (nX : Nat) (rX : List Nat) (nY : Nat) (rY : List Nat)
    (hX : X.shape = nX :: rX) (hY : y.shape = nY :: rY)
    (hdx : nX % b = 0) (hdy : nY % b = 0) :
    get_G_op layers params X y b mf cf = .error .indexError := by
  have hp : layers.length ≤ params.length := by
    have := hc.1
    omega
  have h1 := exParams_ok layers params b hp
  have h2 := tfSplit_ok X b nX rX hX hb hdx
  have h3 := tfSplit_ok y b nY rY hY hb hdy
  have hrows := rows_error_generic layers params hc hL3 b hb
    (zip3With cf
      ((List.range b).map (fun i => (⟨(nY / b) :: rY,
        (y.data.drop (i * (nY / b * rY.prod))).take (nY / b * rY.prod)⟩ : Tensor ℚ)))
      (List.zipWith mf
        ((List.range b).map (fun i => (⟨(nX / b) :: rX,
          (X.data.drop (i * (nX / b * rX.prod))).take (nX / b * rX.prod)⟩ : Tensor ℚ)))
        ((List.range b).map (fun _ => (List.range layers.length).map
          (fun l => tfIdentity (params.getD l ⟨[], []⟩)))))
      ((List.range b).map (fun _ => (List.range layers.length).map
        (fun l => tfIdentity (params.getD l ⟨[], []⟩)))))
    ((List.range b).map (fun _ => (List.range layers.length).map
      (fun l => tfIdentity (params.getD l ⟨[], []⟩))))
    (getD_map_range _ (by omega) [])
    (by rw [zip3With_length]; simp; omega)
    (by simp; omega)
  simp only [get_G_op, except_bind_ok h1, except_bind_ok h2, except_bind_ok h3,
    except_bind_err hrows]

theorem eval_div_sum_mul (x : Nat → ℚ) (b : Nat) (A : Nat → Nat → Expr) (i j : Nat) :
    Expr.eval x (.div (sumE ((List.range b).map (fun t => .mul (A t i) (A t j))))
      (.const (b : ℚ))) =
      (∑ t ∈ Finset.range b, Expr.eval x (A t i) * Expr.eval x (A t j)) / (b : ℚ) := by
  show (sumE ((List.range b).map (fun t =>
    Expr.mul (A t i) (A t j)))).eval x / (b : ℚ) = _
  rw [eval_sumE, List.map_map]
  have hm : (List.range b).map (Expr.eval x ∘ fun t => Expr.mul (A t i) (A t j)) =
      (List.range b).map (fun t => Expr.eval x (A t i) * Expr.eval x (A t j)) :=
    List.map_congr_left (fun t _ => rfl)
  rw [hm, list_sum_range_eq]

theorem dvd_imp_mod_zero (b n : Nat) (h : b ∣ n) : n % b = 0 := by
  obtain ⟨k, hk⟩ := h
  rw [hk]
  exact Nat.mul_mod_right b k

theorem gram_sum_sq (Pn b : Nat) (a : Nat → Nat → ℚ) (z : Nat → ℚ) :
    ∑ i ∈ Finset.range Pn, ∑ j ∈ Finset.range Pn,
      z i * (∑ t ∈ Finset.range b, a t i * a t j) * z j =
      ∑ t ∈ Finset.range b, (∑ i ∈ Finset.range Pn, z i * a t i) ^ 2 := by
  have h1 : ∀ i j : Nat, z i * (∑ t ∈ Finset.range b, a t i * a t j) * z j =
      ∑ t ∈ Finset.range b, (z i * a t i) * (a t j * z j) := by
    intro i j
    rw [Finset.mul_sum, Finset.sum_mul]
    apply Finset.sum_congr rfl
    intro t _
    ring
  simp only [h1]
  have h2 : ∑ i ∈ Finset.range Pn, ∑ j ∈ Finset.range Pn,
      ∑ t ∈ Finset.range b, (z i * a t i) * (a t j * z j) =
      ∑ i ∈ Finset.range Pn, ∑ t ∈ Finset.range b,
        ∑ j ∈ Finset.range Pn, (z i * a t i) * (a t j * z j) := by
    apply Finset.sum_congr rfl
    intro i _
    exact Finset.sum_comm
  rw [h2, Finset.sum_comm]
  apply Finset.sum_congr rfl
  intro t _
  rw [← Finset.sum_mul_sum]
  have h3 : ∑ j ∈ Finset.range Pn, a t j * z j =
      ∑ i ∈ Finset.range Pn, z i * a t i := by
    apply Finset.sum_congr rfl
    intro j _
    rw [mul_comm]
  rw [h3, sq]

/-! ### Claim C4: the OPG matrix is a scaled Gram matrix -/

/-- C4: whenever the OPG construction applies (two layer widths,
conforming parameters, an evenly split batch), `get_G_op` succeeds and
returns `Gradᵀ·Grad / batch_size`: a `P × P` matrix that, at every
variable assignment, is symmetric and positive-semidefinite
(`z ᵀ·G·z ≥ 0` for all `z`). -/
theorem get_G_op_gram (layers : List Nat) (params : List (Tensor Nat))
    (X y : Tensor ℚ) (b : Nat)
    (mf : Tensor ℚ → List (Tensor Nat) → Tensor Expr)
    (cf : Tensor ℚ → Tensor Expr → List (Tensor Nat) → Expr)
    (hL2 : layers.length = 2) (hc : Conforms layers params) (hb : b ≠ 0)
    (nX : Nat) (rX : List Nat) (nY : Nat) (rY : List Nat)
    (hX : X.shape = nX :: rX) (hY : y.shape = nY :: rY)
    (hdx : b ∣ nX) (hdy : b ∣ nY) :
    ∃ G, get_G_op layers params X y b mf cf = .ok G ∧
      G.shape = [P layers, P layers] ∧
      ∀ x : Nat → ℚ,
        (∀ i j, i < P layers → j < P layers →
          entryEval x G (P layers) i j = entryEval x G (P layers) j i) ∧
        (∀ z : Nat → ℚ, 0 ≤ ∑ i ∈ Finset.range (P layers),
          ∑ j ∈ Finset.range (P layers),
            z i * entryEval x G (P layers) i j * z j) := by
  obtain ⟨G, hG, hsh, A, hA⟩ := get_G_op_ok_build layers params X y b mf cf hL2 hc hb
    nX rX nY rY hX hY (dvd_imp_mod_zero b nX hdx)
    (dvd_imp_mod_zero b nY hdy)
  refine ⟨G, hG, hsh, ?_⟩
  intro x
  have hentry : ∀ i j, i < P layers → j < P layers →
      entryEval x G (P layers) i j =
        (∑ t ∈ Finset.range b, Expr.eval x (A t i) * Expr.eval x (A t j)) / (b : ℚ) := by
    intro i j hi hj
    rw [entryEval, hA i j hi hj, eval_div_sum_mul]
  constructor
  · intro i j hi hj
    rw [hentry i j hi hj, hentry j i hj hi]
    congr 1
    apply Finset.sum_congr rfl
    intro t _
    rw [mul_comm]
  · intro z
    have hform : ∑ i ∈ Finset.range (P layers), ∑ j ∈ Finset.range (P layers),
        z i * entryEval x G (P layers) i j * z j =
        (∑ t ∈ Finset.range b, (∑ i ∈ Finset.range (P layers),
          z i * Expr.eval x (A t i)) ^ 2) / (b : ℚ) := by
      have hstep : ∑ i ∈ Finset.range (P layers), ∑ j ∈ Finset.range (P layers),
          z i * entryEval x G (P layers) i j * z j =
          ∑ i ∈ Finset.range (P layers), ∑ j ∈ Finset.range (P layers),
            (z i * (∑ t ∈ Finset.range b,
              Expr.eval x (A t i) * Expr.eval x (A t j)) * z j) / (b : ℚ) := by
        apply Finset.sum_congr rfl
        intro i hi
        apply Finset.sum_congr rfl
        intro j hj
        rw [hentry i j (Finset.mem_range.mp hi) (Finset.mem_range.mp hj)]
        ring
      rw [hstep]
      have hstep2 : ∑ i ∈ Finset.range (P layers),
          (∑ j ∈ Finset.range (P layers), (z i * (∑ t ∈ Finset.range b,
            Expr.eval x (A t i) * Expr.eval x (A t j)) * z j) / (b : ℚ)) =
          ∑ i ∈ Finset.range (P layers),
            (∑ j ∈ Finset.range (P layers), z i * (∑ t ∈ Finset.range b,
              Expr.eval x (A t i) * Expr.eval x (A t j)) * z j) / (b : ℚ) := by
        apply Finset.sum_congr rfl
        intro i _
        rw [← Finset.sum_div]
      rw [hstep2, ← Finset.sum_div,
        gram_sum_sq (P layers) b (fun t i => Expr.eval x (A t i)) z]
    rw [hform]
    apply div_nonneg
    · apply Finset.sum_nonneg
      intro t _
      exact sq_nonneg _
    · exact Nat.cast_nonneg b

/-- Witness for C4 at `layers = [1,1]`, batch size 1. -/
theorem get_G_op_gram_witness :
    (([1, 1] : List Nat).length = 2) ∧
    Conforms [1, 1] (canonicalParams [1, 1]) ∧ ((1 : Nat) ≠ 0) ∧
    ((⟨[1], [5]⟩ : Tensor ℚ).shape = 1 :: []) ∧
    ((⟨[1], [7]⟩ : Tensor ℚ).shape = 1 :: []) ∧ ((1 : Nat) ∣ 1) ∧
    (∃ G, get_G_op [1, 1] (canonicalParams [1, 1]) ⟨[1], [5]⟩ ⟨[1], [7]⟩ 1
        (fun _ _ => ⟨[1], [.const 0]⟩) (fun _ _ _ => .const 0) = .ok G ∧
      G.shape = [P [1, 1], P [1, 1]] ∧
      ∀ x : Nat → ℚ,
        (∀ i j, i < P [1, 1] → j < P [1, 1] →
          entryEval x G (P [1, 1]) i j = entryEval x G (P [1, 1]) j i) ∧
        (∀ z : Nat → ℚ, 0 ≤ ∑ i ∈ Finset.range (P [1, 1]),
          ∑ j ∈ Finset.range (P [1, 1]),
            z i * entryEval x G (P [1, 1]) i j * z j)) :=
  ⟨rfl, by decide, by decide, rfl, rfl, by decide,
    get_G_op_gram [1, 1] (canonicalParams [1, 1]) ⟨[1], [5]⟩ ⟨[1], [7]⟩ 1
      (fun _ _ => ⟨[1], [.const 0]⟩) (fun _ _ _ => .const 0) rfl (by decide) (by decide)
      1 [] 1 [] rfl rfl (by decide) (by decide)⟩

/-! ### Claim C6: in-bounds indexing iff two layer widths -/

/-- C6: with conforming parameters and an evenly split batch, all list
indexing inside `get_G_op` stays in bounds — equivalently the whole
graph construction succeeds — if and only if the schema has exactly two
layer widths; with three or more, the per-example copy holds only
`len(layers)` tensors while `flatten` indexes up to `2L - 1`, an
out-of-range access. -/
theorem get_G_op_in_bounds_iff (layers : List Nat) (params : List (Tensor Nat))
    (X y : Tensor ℚ) (b : Nat)
    (mf : Tensor ℚ → List (Tensor Nat) → Tensor Expr)
    (cf : Tensor ℚ → Tensor Expr → List (Tensor Nat) → Expr)
    (hL : 2 ≤ layers.length) (hc : Conforms layers params) (hb : b ≠ 0)
    (nX : Nat) (rX : List Nat) (nY : Nat) (rY : List Nat)
    (hX : X.shape = nX :: rX) (hY : y.shape = nY :: rY)
    (hdx : b ∣ nX) (hdy : b ∣ nY) :
    (∃ G, get_G_op layers params X y b mf cf = .ok G) ↔ layers.length = 2 := by
  constructor
  · rintro ⟨G, hG⟩
    by_contra hne
    rw [get_G_op_index_error layers params X y b mf cf (by omega) hc hb nX rX nY rY
      hX hY (dvd_imp_mod_zero b nX hdx)
      (dvd_imp_mod_zero b nY hdy)] at hG
    cases hG
  · intro h2
    obtain ⟨G, hG, _⟩ := get_G_op_ok_build layers params X y b mf cf h2 hc hb
      nX rX nY rY hX hY (dvd_imp_mod_zero b nX hdx)
      (dvd_imp_mod_zero b nY hdy)
    exact ⟨G, hG⟩

/-- Witness for C6 at `layers = [1,1]` (the in-bounds direction). -/
theorem get_G_op_in_bounds_iff_witness :
    (2 ≤ ([1, 1] : List Nat).length) ∧
    Conforms [1, 1] (canonicalParams [1, 1]) ∧ ((1 : Nat) ≠ 0) ∧
    ((⟨[1], [5]⟩ : Tensor ℚ).shape = 1 :: []) ∧ ((1 : Nat) ∣ 1) ∧
    ((∃ G, get_G_op [1, 1] (canonicalParams [1, 1]) ⟨[1], [5]⟩ ⟨[1], [7]⟩ 1
        (fun _ _ => ⟨[1], [.const 0]⟩) (fun _ _ _ => .const 0) = .ok G) ↔
      ([1, 1] : List Nat).length = 2) :=
  ⟨by decide, by decide, by decide, rfl, by decide,
    get_G_op_in_bounds_iff [1, 1] (canonicalParams [1, 1]) ⟨[1], [5]⟩ ⟨[1], [7]⟩ 1
      (fun _ _ => ⟨[1], [.const 0]⟩) (fun _ _ _ => .const 0) (by decide) (by decide)
      (by decide) 1 [] 1 [] rfl rfl (by decide) (by decide)⟩

/-! ### Claim C7: batch divisibility -/

/-- C7: calling the OPG estimator on a batch whose example count is not
a multiple of `batch_size` fails with a BatchShapeError and yields no
partial result; when the count is an exact multiple, the split into
per-example slices succeeds (yielding `batch_size` slices). -/
theorem get_G_op_batch_error (layers : List Nat) (params : List (Tensor Nat))
    (X y : Tensor ℚ) (b : Nat)
    (mf : Tensor ℚ → List (Tensor Nat) → Tensor Expr)
    (cf : Tensor ℚ → Tensor Expr → List (Tensor Nat) → Expr)
    (hp : layers.length ≤ params.length)
    (n : Nat) (rest : List Nat) (hX : X.shape = n :: rest) :
    (¬ (b ∣ n) → get_G_op layers params X y b mf cf = .error .batchShapeError) ∧
    (b ∣ n → b ≠ 0 → ∃ s, tfSplit X b = .ok s ∧ s.length = b) := by
  constructor
  · intro hnd
    have hcond : ¬(b ≠ 0 ∧ n % b = 0) := by
      rintro ⟨hb, hm⟩
      exact hnd (Nat.dvd_of_mod_eq_zero hm)
    simp only [get_G_op, except_bind_ok (exParams_ok layers params b hp),
      except_bind_err (tfSplit_err X b n rest hX hcond)]
  · intro hd hb
    exact ⟨_, tfSplit_ok X b n rest hX hb (dvd_imp_mod_zero b n hd),
      by simp⟩

/-- Witness for C7: batch of 3 examples with batch size 2. -/
theorem get_G_op_batch_error_witness :
    (([1, 1] : List Nat).length ≤ (canonicalParams [1, 1]).length) ∧
    ((⟨[3], [1, 2, 3]⟩ : Tensor ℚ).shape = 3 :: []) ∧
    ((¬ ((2 : Nat) ∣ 3) →
      get_G_op [1, 1] (canonicalParams [1, 1]) ⟨[3], [1, 2, 3]⟩ ⟨[3], [1, 2, 3]⟩ 2
        (fun _ _ => ⟨[1], [.const 0]⟩) (fun _ _ _ => .const 0) =
          .error .batchShapeError) ∧
    ((2 : Nat) ∣ 3 → (2 : Nat) ≠ 0 →
      ∃ s, tfSplit (⟨[3], [1, 2, 3]⟩ : Tensor ℚ) 2 = .ok s ∧ s.length = 2)) :=
  ⟨by decide, rfl,
    get_G_op_batch_error [1, 1] (canonicalParams [1, 1]) ⟨[3], [1, 2, 3]⟩
      ⟨[3], [1, 2, 3]⟩ 2 (fun _ _ => ⟨[1], [.const 0]⟩) (fun _ _ _ => .const 0)
      (by decide) 3 [] rfl⟩

theorem range_map_getD_take {α β : Type} (f : α → β) (d : α) (params : List α) (k : Nat)
    (hk : k ≤ params.length) :
    (List.range k).map (fun l => f (params.getD l d)) = (params.take k).map f := by
  apply List.ext_getElem
  · simp [Nat.min_eq_left hk]
  · intro i h1 h2
    simp only [List.getElem_map, List.getElem_range, List.getElem_take]
    rw [List.getD_eq_getElem _ _ (by simp at h1; omega)]

/-! ### Claim C5: per-example parameter copies -/

/-- C5 counterexample: with three layer widths (`L = 2`), the schema
calls for `2L = 4` parameter tensors — and `canonicalParams [1,1,1]`
indeed has 4 — yet the per-example copy inside `get_G_op` holds only
`len(layers) = 3` tensors, so the second bias tensor is never copied. -/
theorem exParams_partial_copy_cex :
    (canonicalParams [1, 1, 1]).length = 4 ∧
    (exParams [1, 1, 1] (canonicalParams [1, 1, 1]) 1).map
      (fun copies => (copies.getD 0 []).length) = .ok 3 := by
  decide

/-- C5 (amended): for each of the `batch_size` examples, `get_G_op`
copies via `tf.identity` only the FIRST `len(layers) = L + 1` tensors of
the parameter list — a strict prefix whenever the list has the full
`2L ≥ L + 2` tensors — rather than the entire StructuredParameters. -/
theorem exParams_copies_prefix (layers : List Nat) (params : List (Tensor Nat)) (b : Nat)
    (hp : layers.length ≤ params.length) :
    exParams layers params b = .ok ((List.range b).map (fun _ =>
      (params.take layers.length).map tfIdentity)) ∧
    (params.take layers.length).length = layers.length := by
  constructor
  · rw [exParams_ok layers params b hp]
    apply congrArg
    apply List.map_congr_left
    intro ex _
    exact range_map_getD_take tfIdentity ⟨[], []⟩ params layers.length hp
  · simp [Nat.min_eq_left hp]

/-- Witness for C5 at `layers = [1,1,1]`, batch size 1. -/
theorem exParams_copies_prefix_witness :
    (([1, 1, 1] : List Nat).length ≤ (canonicalParams [1, 1, 1]).length) ∧
    (exParams [1, 1, 1] (canonicalParams [1, 1, 1]) 1 =
      .ok ((List.range 1).map (fun _ =>
        ((canonicalParams [1, 1, 1]).take ([1, 1, 1] : List Nat).length).map tfIdentity)) ∧
     ((canonicalParams [1, 1, 1]).take ([1, 1, 1] : List Nat).length).length =
      ([1, 1, 1] : List Nat).length) :=
  ⟨by decide, exParams_copies_prefix [1, 1, 1] (canonicalParams [1, 1, 1]) 1 (by decide)⟩

/-! ### Claim C9: what flatten_v2 concatenates -/

/-- C9 counterexample: `flatten_v2` does NOT consume every tensor of
the list. With `layers = [1,1,1]` the conforming list has `2L = 4`
tensors carrying flat data `[0], [1], [2], [3]`, but `flatten_v2`
returns only `[0, 1, 2]` — the concatenation of all entries would be
`[0, 1, 2, 3]`. -/
theorem flatten_v2_ignores_tail_cex :
    (canonicalParams [1, 1, 1]).length = 4 ∧
    flatten_v2 [1, 1, 1] (canonicalParams [1, 1, 1]) = .ok ⟨[3], [0, 1, 2]⟩ ∧
    ((canonicalParams [1, 1, 1]).map (fun t => t.data)).flatten = [0, 1, 2, 3] := by
  decide

/-- C9 (amended): `flatten_v2` concatenates, each reshaped to 1-D and
in the order received, exactly the first `len(layers)` entries of the
parameter list (the range is `range(len(self.layers))`, not the whole
list): a strict prefix whenever the list holds the full `2L` tensors
with `L ≥ 2`. -/
theorem flatten_v2_prefix_concat {α : Type} (layers : List Nat) (params : List (Tensor α))
    (h1 : 1 ≤ layers.length) (h2 : layers.length ≤ params.length) :
    flatten_v2 layers params = .ok
      ⟨[((params.take layers.length).map (fun t => t.data.length)).sum],
       ((params.take layers.length).map (fun t => t.data)).flatten⟩ := by
  have hseq : seqE ((List.range layers.length).map (fun l =>
      pyIdx params l >>= fun t => .ok (tfReshapeFlat t))) =
      .ok ((List.range layers.length).map (fun l =>
        tfReshapeFlat (params.getD l ⟨[], []⟩))) := by
    apply seqE_map_ok
    intro l hl
    rw [except_bind_ok (pyIdx_ok params
      (lt_of_lt_of_le (List.mem_range.mp hl) h2) ⟨[], []⟩)]
  have hmap : (List.range layers.length).map (fun l =>
      tfReshapeFlat (params.getD l ⟨[], []⟩)) =
      (params.take layers.length).map tfReshapeFlat :=
    range_map_getD_take tfReshapeFlat ⟨[], []⟩ params layers.length h2
  rw [hmap] at hseq
  have h0 : 0 < ((params.take layers.length).map tfReshapeFlat).length := by
    simp [Nat.min_eq_left h2]
    omega
  have hsh : ∀ t ∈ (params.take layers.length).map tfReshapeFlat,
      t.shape = [t.data.length] := by
    intro t ht
    obtain ⟨s, _, rfl⟩ := List.mem_map.mp ht
    rfl
  simp only [flatten_v2, except_bind_ok hseq, tfConcat1_ok _ h0 hsh, List.map_map]
  rfl

/-- Witness for C9 at `layers = [1,1]`. -/
theorem flatten_v2_prefix_concat_witness :
    (1 ≤ ([1, 1] : List Nat).length) ∧
    (([1, 1] : List Nat).length ≤ (canonicalParams [1, 1]).length) ∧
    flatten_v2 [1, 1] (canonicalParams [1, 1]) = .ok
      ⟨[(((canonicalParams [1, 1]).take ([1, 1] : List Nat).length).map
          (fun t => t.data.length)).sum],
       (((canonicalParams [1, 1]).take ([1, 1] : List Nat).length).map
          (fun t => t.data)).flatten⟩ :=
  ⟨by decide, by decide,
    flatten_v2_prefix_concat [1, 1] (canonicalParams [1, 1]) (by decide) (by decide)⟩

/-! ### Claim C10: flatten and flatten_v2 agree on two-layer schemas -/

theorem flatten_two_layer {α : Type} (a b : Nat) (W B : Tensor α)
    (hW : W.data.length = a * b) (hB : B.shape = [B.data.length]) :
    flatten [a, b] [W, B] = .ok ⟨[a * b + B.data.length], W.data ++ B.data⟩ := by
  have hrw : tfReshape W [a * b] = .ok ⟨[a * b], W.data⟩ := by
    rw [tfReshape, if_pos (by simp [hW])]
  have hw : seqE ((List.range (([a, b] : List Nat).length - 1)).map (fun l =>
      pyIdx [W, B] l >>= fun t =>
        tfReshape t [([a, b] : List Nat).getD l 0 * ([a, b] : List Nat).getD (l + 1) 0])) =
      .ok [⟨[a * b], W.data⟩] := by
    show seqE [pyIdx [W, B] 0 >>= fun t => tfReshape t [a * b]] = _
    rw [except_bind_ok (show pyIdx [W, B] 0 = .ok W from rfl), hrw]
    rfl
  have hwc : tfConcat1 [(⟨[a * b], W.data⟩ : Tensor α)] = .ok ⟨[a * b], W.data⟩ := by
    have hc : 0 < ([(⟨[a * b], W.data⟩ : Tensor α)] : List (Tensor α)).length ∧
        ∀ t ∈ [(⟨[a * b], W.data⟩ : Tensor α)], t.shape = [t.data.length] := by
      refine ⟨by simp, ?_⟩
      intro t ht
      rw [List.mem_singleton] at ht
      subst ht
      simp [hW]
    rw [tfConcat1, if_pos hc]
    simp [hW]
  have hbp : seqE ((List.range (([a, b] : List Nat).length - 1)).map (fun l =>
      pyIdx [W, B] (l + (([a, b] : List Nat).length - 1)))) = .ok [B] := rfl
  have hbc : tfConcat1 [B] = .ok ⟨[B.data.length], B.data⟩ := by
    have hc : 0 < ([B] : List (Tensor α)).length ∧
        ∀ t ∈ [B], t.shape = [t.data.length] := by
      refine ⟨by simp, ?_⟩
      intro t ht
      rw [List.mem_singleton] at ht
      subst ht
      exact hB
    rw [tfConcat1, if_pos hc]
    simp
  simp only [flatten, except_bind_ok hw, except_bind_ok hwc, except_bind_ok hbp,
    except_bind_ok hbc]
  exact tfConcat1_pair (a * b) B.data.length W.data B.data hW rfl

theorem flatten_v2_two_layer {α : Type} (a b : Nat) (W B : Tensor α) :
    flatten_v2 [a, b] [W, B] =
      .ok ⟨[W.data.length + B.data.length], W.data ++ B.data⟩ := by
  have hparts : seqE ((List.range (([a, b] : List Nat).length)).map (fun l =>
      pyIdx [W, B] l >>= fun t => Except.ok (tfReshapeFlat t))) =
      .ok [tfReshapeFlat W, tfReshapeFlat B] := rfl
  simp only [flatten_v2, except_bind_ok hparts]
  exact tfConcat1_pair W.data.length B.data.length W.data B.data rfl rfl

/-- C10: on a two-width schema `layers = [a, b]` with a conforming
two-tensor list `[W, B]` (weight data of length `a*b`, 1-D bias), the
weights-then-biases codec `flatten` and the plain-concatenation codec
`flatten_v2` return the same flat vector: the reshaped weight data
followed by the bias data. -/
theorem flatten_agrees_flatten_v2 {α : Type} (a b : Nat) (W B : Tensor α)
    (hW : W.data.length = a * b) (hB : B.shape = [B.data.length]) :
    flatten [a, b] [W, B] = flatten_v2 [a, b] [W, B] ∧
    flatten [a, b] [W, B] = .ok ⟨[a * b + B.data.length], W.data ++ B.data⟩ := by
  have h1 := flatten_two_layer a b W B hW hB
  have h2 := flatten_v2_two_layer a b W B
  refine ⟨?_, h1⟩
  rw [h1, h2, hW]

/-- Witness for C10 at `layers = [1,2]` with concrete rational data. -/
theorem flatten_agrees_flatten_v2_witness :
    ((⟨[1, 2], [10, 20]⟩ : Tensor ℚ).data.length = 1 * 2) ∧
    ((⟨[2], [30, 40]⟩ : Tensor ℚ).shape =
      [(⟨[2], [30, 40]⟩ : Tensor ℚ).data.length]) ∧
    (flatten [1, 2] [(⟨[1, 2], [10, 20]⟩ : Tensor ℚ), ⟨[2], [30, 40]⟩] =
      flatten_v2 [1, 2] [(⟨[1, 2], [10, 20]⟩ : Tensor ℚ), ⟨[2], [30, 40]⟩] ∧
     flatten [1, 2] [(⟨[1, 2], [10, 20]⟩ : Tensor ℚ), ⟨[2], [30, 40]⟩] =
      .ok ⟨[1 * 2 + (⟨[2], [30, 40]⟩ : Tensor ℚ).data.length],
           [10, 20] ++ [30, 40]⟩) :=
  ⟨rfl, rfl, flatten_agrees_flatten_v2 1 2 ⟨[1, 2], [10, 20]⟩ ⟨[2], [30, 40]⟩ rfl rfl⟩
